import Mathlib

/-!
Verification of the gravitic-celestial pipeline core.

This file shallowly embeds the pipeline orchestration engine and the hybrid
retrieval engine of the repository in Lean 4 and proves the spec claims about
them.  Python floats are modelled as exact rationals, Python strings as Lean
strings, Python dicts as insertion-ordered association lists, and Python None
as Option.none.  Each definition mirrors one function of the source tree;
the source file and function are named in the doc comment.
-/

/-- Python substring test: needle in hay (both strings), as in
src/gravitic-celestial sources.  Modelled as list-infix on the character
lists. -/
def strContains (hay needle : String) : Bool :=
  decide (needle.data <:+: hay.data)

/-- Python str.lower(), modelled charwise (the metric strings and answers
involved are ASCII). -/
def strLower (s : String) : String := ⟨s.data.map Char.toLower⟩

/-- Python str.strip(): removes leading and trailing whitespace. -/
def pyStrip (s : String) : String :=
  ⟨((s.data.dropWhile Char.isWhitespace).reverse.dropWhile Char.isWhitespace).reverse⟩

/-- Python dict.get for string-valued association lists with a default. -/
def pyGetD (entries : List (String × String)) (key dflt : String) : String :=
  match entries.lookup key with
  | some v => v
  | none => dflt

/-- Python key in dict membership test. -/
def hasKey (entries : List (String × String)) (key : String) : Bool :=
  (entries.lookup key).isSome

/-- Python dict item assignment: replaces the value in place when the key is
present, appends the binding otherwise. -/
def setKey (entries : List (String × String)) (key v : String) : List (String × String) :=
  if hasKey entries key then
    entries.map (fun p => if p.1 = key then (key, v) else p)
  else entries ++ [(key, v)]

/-- Python dict.setdefault: inserts the binding only when the key is absent. -/
def setDefault (entries : List (String × String)) (key v : String) : List (String × String) :=
  if hasKey entries key then entries else entries ++ [(key, v)]

/-- Python dict.get for dicts whose values are lists of strings, with a
default (used for the summary field of an AnalysisPayload). -/
def pyGetListD (entries : List (String × List String)) (key : String)
    (dflt : List String) : List String :=
  match entries.lookup key with
  | some v => v
  | none => dflt

/-! ## Retrieval engine: core/tools/hybrid_rag.py -/

/-- SearchResult dataclass of core/tools/hybrid_rag.py.  The metadata dict is
not consulted by reciprocal_rank_fusion, so it is carried as an association
list for faithfulness only. -/
structure SearchResult where
  chunk_id : String
  text : String
  metadata : List (String × String)
  score : ℚ
deriving DecidableEq, Repr

/-- A Python dict, modelled as its insertion-ordered key list together with
its mapping (Python dicts iterate in insertion order and in-place updates
keep the slot).  The mapping returns the dict.get default for absent
keys. -/
structure PyDict (β : Type) where
  keys : List String
  val : String → β

/-- Dict item assignment: an existing key keeps its slot, a new key is
appended to the iteration order. -/
def dictSet {β : Type} (d : PyDict β) (k : String) (v : β) : PyDict β :=
  { keys := if k ∈ d.keys then d.keys else d.keys ++ [k],
    val := fun x => if x = k then v else d.val x }

/-- The empty scores dict; scores.get(cid, 0.0) defaults to 0. -/
def emptyScores : PyDict ℚ := { keys := [], val := fun _ => 0 }

/-- One `for rank, result in enumerate(results, start=1)` accumulation loop of
HybridRAGEngine.reciprocal_rank_fusion:
scores[id] = scores.get(id, 0.0) + 1.0 / (k + rank). -/
def accumRRF (k : ℚ) : List SearchResult → ℕ → PyDict ℚ → PyDict ℚ
  | [], _, scores => scores
  | r :: rest, rank, scores =>
      accumRRF k rest (rank + 1)
        (dictSet scores r.chunk_id (scores.val r.chunk_id + 1 / (k + rank)))

/-- The empty lookup dict; an id never written maps to none (a KeyError slot,
provably never dereferenced by the fusion). -/
def emptyLookup : PyDict (Option SearchResult) := { keys := [], val := fun _ => none }

/-- Accumulate the lookup dict over one ranked list: lookup[id] = result
(last write wins). -/
def accumLookup : List SearchResult → PyDict (Option SearchResult) →
    PyDict (Option SearchResult)
  | [], d => d
  | r :: rest, d => accumLookup rest (dictSet d r.chunk_id (some r))

/-- Stable insertion step for a descending sort by score: an element moves
before the first element of strictly smaller score, so elements of equal
score keep their original relative order — the behaviour of Python's stable
sorted(..., reverse=True). -/
def insertDesc (score : String → ℚ) (x : String) : List String → List String
  | [] => [x]
  | y :: ys => if score y ≤ score x then x :: y :: ys else y :: insertDesc score x ys

/-- Stable descending sort by score (extensionally equal to Python's stable
sorted(keys, key=scores.get, reverse=True)). -/
def sortDesc (score : String → ℚ) (l : List String) : List String :=
  l.foldr (insertDesc score) []

/-- HybridRAGEngine.reciprocal_rank_fusion of core/tools/hybrid_rag.py.
Both ranked lists are folded into the scores dict and the lookup dict, the
ids are sorted by descending fused score (stable), truncated to top_k, and
re-materialised as SearchResults carrying the fused score and the looked-up
text/metadata. -/
def reciprocal_rank_fusion (semantic_results keyword_results : List SearchResult)
    (top_k : ℕ := 8) (k : ℚ := 60) : List SearchResult :=
  let scores := accumRRF k keyword_results 1 (accumRRF k semantic_results 1 emptyScores)
  let lookup := accumLookup keyword_results (accumLookup semantic_results emptyLookup)
  let ranked_ids := (sortDesc scores.val scores.keys).take top_k
  ranked_ids.filterMap fun cid =>
    (lookup.val cid).map fun base =>
      { chunk_id := base.chunk_id, text := base.text, metadata := base.metadata,
        score := scores.val cid }

/-- Specification-side fused contribution of one ranked list to one chunk id:
the sum of 1/(k+rank) over the ranks (counted from `rank0`) at which the id
occurs; an id absent from the list contributes 0. -/
def rrfContrib (k : ℚ) (cid : String) : List SearchResult → ℕ → ℚ
  | [], _ => 0
  | r :: rest, rank =>
      (if r.chunk_id = cid then 1 / (k + rank) else 0) + rrfContrib k cid rest (rank + 1)

/-! ## Extraction engine: core/tools/extraction_engine.py -/

/-- One element of the kpis list in the adapter's JSON output: either a JSON
object (a dict whose scalar values are modelled by their str() coercions) or
a non-object value. -/
inductive KpiEl where
  | obj (entries : List (String × String))
  | nonObj
deriving DecidableEq, Repr

/-- The adapter's parsed JSON output as consumed by ExtractionEngine: the
kpis key (some xs when it holds a Python list, none when absent or
non-list — both take the same branches in the source) plus a flag recording
whether the dict has any other content (Python truthiness of the dict). -/
structure AnalysisDict where
  kpis : Option (List KpiEl) := none
  hasOther : Bool := false
deriving DecidableEq, Repr

/-- Python truthiness of the adapter output dict. -/
def dictTruthy (d : AnalysisDict) : Bool := d.kpis.isSome || d.hasOther

/-- ExtractionEngine.REVENUE_ALIASES, in source order. -/
def REVENUE_ALIASES : List String :=
  ["revenue", "net sales", "sales", "turnover", "top line", "total revenue",
   "product revenue", "services revenue"]

/-- Normalisation of one kpis element inside
ExtractionEngine.normalize_metric_aliases (source name with a leading
underscore): when some alias is a substring of the lowercased metric and the
metric is not already the canonical label, the original metric is preserved
under raw_metric (setdefault) and the metric is set to Revenue.  The loop
breaks at the first matching alias; since the action does not depend on
which alias matched this equals an existence test. -/
def normalizeEl : KpiEl → KpiEl
  | .nonObj => .nonObj
  | .obj e =>
      let metric := pyGetD e "metric" ""
      let lower := strLower metric
      if REVENUE_ALIASES.any (fun al => strContains lower al) then
        if metric ≠ "Revenue" then
          .obj (setKey (setDefault e "raw_metric" metric) "metric" "Revenue")
        else .obj e
      else .obj e

/-- ExtractionEngine.normalize_metric_aliases: maps the kpis list elementwise
and returns the dict unchanged when kpis is absent or not a list. -/
def normalize_metric_aliases (d : AnalysisDict) : AnalysisDict :=
  match d.kpis with
  | none => d
  | some els => { d with kpis := some (els.map normalizeEl) }

/-- Post-adapter step of ExtractionEngine.extract: a non-dict adapter result
becomes the empty dict, a dict result is alias-normalised.  The prompt
construction and the adapter call itself carry no logic relevant to the
claims; the adapter output is the argument. -/
def extract_post (adapterOut : Option AnalysisDict) : AnalysisDict :=
  match adapterOut with
  | none => {}
  | some d => normalize_metric_aliases d

/-- ExtractionEngine.contains_revenue_metric (source name with a leading
underscore): some item's lowercased metric contains a revenue alias.  The
function is only reached after every item was checked to be a dict, so the
nonObj branch is unreachable there. -/
def contains_revenue_metric (els : List KpiEl) : Bool :=
  els.any fun el =>
    match el with
    | .obj e => REVENUE_ALIASES.any (fun al => strContains (strLower (pyGetD e "metric" "")) al)
    | .nonObj => false

/-- ExtractionEngine.is_valid.  The llm parameter models the
llm_deduces_revenue fallback (an adapter call whose answer is opaque to the
core); every theorem below holds for every such oracle. -/
def is_valid (llm : AnalysisDict → Bool) (d : AnalysisDict) : Bool :=
  if !dictTruthy d then false
  else
    match d.kpis with
    | none => false
    | some els =>
        if els.isEmpty then false
        else if els.any (fun el =>
            match el with
            | .obj e => !(hasKey e "metric" && hasKey e "value")
            | .nonObj => true) then false
        else if contains_revenue_metric els then true
        else llm d

/-! ## Analysis stage graph: core/graph/nodes/analyst_node.py and
GraphRuntime.build_analysis_graph in core/graph/builder.py -/

/-- Nodes of the analysis StateGraph. -/
inductive ANode where
  | build_prompt
  | call_gemini_extract
  | validate_json
  | reflection_retry_once
  | dead_letter
  | emit_analysis_payload
deriving DecidableEq, Repr

/-- The dict state threaded through the analysis graph.  filing_payload is
modelled by its presence (the orchestrator always supplies one); the
analysis payload emission is modelled by the emitted flag since its field
shuffling is irrelevant to the retry-bound claim.  extract_calls is a ghost
counter of ExtractionEngine.extract invocations. -/
structure AState where
  filing_payload_present : Bool := true
  analysis_dict : AnalysisDict := {}
  reflection_attempted : Bool := false
  is_valid_flag : Bool := false
  dead_lettered : Bool := false
  emitted : Bool := false
  extract_calls : ℕ := 0
  errors : List String := []
  trace : List String := []
deriving DecidableEq, Repr

/-- Effect of one analysis node on the state; none models an uncaught Python
exception inside the node (reflection_retry_once dereferences a missing
filing payload).  extract is the model adapter's extraction oracle indexed
by the reflection flag; llm is the validation fallback oracle. -/
def aApply (extract : Bool → AnalysisDict) (llm : AnalysisDict → Bool) :
    ANode → AState → Option AState
  | .build_prompt, s => some { s with trace := s.trace ++ ["build_prompt"] }
  | .call_gemini_extract, s =>
      if s.filing_payload_present then
        some { s with analysis_dict := extract false, reflection_attempted := false,
                      extract_calls := s.extract_calls + 1,
                      trace := s.trace ++ ["call_gemini_extract"] }
      else
        some { s with analysis_dict := {}, errors := s.errors ++ ["missing_filing_payload"] }
  | .validate_json, s =>
      some { s with is_valid_flag := is_valid llm s.analysis_dict,
                    trace := s.trace ++ ["validate_json"] }
  | .reflection_retry_once, s =>
      if s.filing_payload_present then
        some { s with analysis_dict := extract true, reflection_attempted := true,
                      extract_calls := s.extract_calls + 1,
                      trace := s.trace ++ ["reflection_retry_once"] }
      else none
  | .dead_letter, s =>
      some { s with errors := s.errors ++ ["analysis_validation_failed"],
                    dead_lettered := true, trace := s.trace ++ ["dead_letter"] }
  | .emit_analysis_payload, s =>
      some { s with emitted := true, trace := s.trace ++ ["emit_analysis_payload"] }

/-- AnalystNodes.route_after_validation. -/
def route_after_validation (s : AState) : String :=
  if s.is_valid_flag then "emit"
  else if s.reflection_attempted then "dead_letter"
  else "reflect"

/-- Edges of the analysis graph as wired in GraphRuntime.build_analysis_graph;
none is END. -/
def aNext : ANode → AState → Option ANode
  | .build_prompt, _ => some .call_gemini_extract
  | .call_gemini_extract, _ => some .validate_json
  | .validate_json, s =>
      match route_after_validation s with
      | "reflect" => some .reflection_retry_once
      | "dead_letter" => some .dead_letter
      | _ => some .emit_analysis_payload
  | .reflection_retry_once, _ => some .validate_json
  | .dead_letter, _ => none
  | .emit_analysis_payload, _ => none

/-- Outcome of a graph invocation: normal completion, an uncaught exception
(carrying the state at the raise, whose ghost counters are still meaningful),
or fuel exhaustion. -/
inductive AOutcome where
  | finished (s : AState)
  | raised (s : AState)
  | outOfFuel
deriving DecidableEq, Repr

/-- Fuel-indexed interpreter of the analysis graph. -/
def runAnalysisGraph (extract : Bool → AnalysisDict) (llm : AnalysisDict → Bool) :
    ℕ → ANode → AState → AOutcome
  | 0, _, _ => .outOfFuel
  | fuel + 1, n, s =>
      match aApply extract llm n s with
      | none => .raised s
      | some s1 =>
          match aNext n s1 with
          | none => .finished s1
          | some n1 => runAnalysisGraph extract llm fuel n1 s1

/-! ## Query stage derivation: core/graph/nodes/synthesis_node.py -/

/-- Round a rational to 4 decimal places with round-half-even, modelling
Python's round(score, 4) (float representation modelled as exact). -/
def roundTo4 (q : ℚ) : ℚ :=
  let scaled : ℚ := q * 10000
  let n : ℤ := ⌊scaled⌋
  let frac : ℚ := scaled - n
  let rounded : ℤ :=
    if frac < 1 / 2 then n
    else if 1 / 2 < frac then n + 1
    else if n % 2 = 0 then n else n + 1
  (rounded : ℚ) / 10000

/-- clamp_confidence of core/graph/nodes/synthesis_node.py (source name with
a leading underscore).  none models a raw value float() cannot parse (the
except branch). -/
def clamp_confidence (value : Option ℚ) : ℚ :=
  match value with
  | none => 0
  | some score =>
      if score < 0 then 0
      else if 1 < score then 1
      else roundTo4 score

/-- The literal non-answer patterns of looks_like_non_answer; they contain no
regex metacharacters, so re.search is a substring test. -/
def NON_ANSWER_PATTERNS : List String :=
  ["insufficient context", "not enough information", "cannot determine",
   "no information", "unknown"]

/-- looks_like_non_answer of core/graph/nodes/synthesis_node.py (source name
with a leading underscore). -/
def looks_like_non_answer (text : String) : Bool :=
  let normalized := pyStrip (strLower text)
  if normalized = "" then true
  else NON_ANSWER_PATTERNS.any (fun p => strContains normalized p)

/-- The dict parsed from the derivation model call, post str() coercions:
derived_answer models str(raw or ""), confidence carries the raw numeric
value (none when float() raises), derivation_trace is some xs when the key
holds a list. -/
structure ParsedDerivation where
  derived_answer : String := ""
  confidence : Option ℚ := some 0
  derivation_trace : Option (List String) := some []
deriving DecidableEq, Repr

/-- The fields of the state written by derive_metric. -/
structure DeriveOut where
  derived_answer : String
  derivation_trace : List String
  answer_confidence : ℚ
deriving DecidableEq, Repr

/-- SynthesisNodes.derive_metric of core/graph/nodes/synthesis_node.py.
question is the (already stripped) state question, contextTexts the fused
retrieval texts, parsed the adapter's JSON (none when both the JSON call and
the text fallback produced nothing, which the source collapses to an empty
dict). -/
def derive_metric (question : String) (contextTexts : List String)
    (parsed : Option ParsedDerivation) : DeriveOut :=
  let contexts := contextTexts.take 4
  if question = "" || contexts.isEmpty then
    { derived_answer := "", derivation_trace := [], answer_confidence := 0 }
  else
    let p := parsed.getD {}
    let derived0 := pyStrip p.derived_answer
    let derived1 := if derived0 ≠ "" && looks_like_non_answer derived0 then "" else derived0
    let confidence := clamp_confidence p.confidence
    let rawTrace := p.derivation_trace.getD []
    let derivation_trace := ((rawTrace.map pyStrip).filter (fun s => s ≠ "")).take 5
    if derived1 = "" then
      { derived_answer := "", derivation_trace := [], answer_confidence := 0 }
    else
      { derived_answer := derived1, derivation_trace := derivation_trace,
        answer_confidence := confidence }

/-! ## Knowledge stage: core/graph/nodes/knowledge_node.py and the chunk
store of HybridRAGEngine.add_documents (core/tools/hybrid_rag.py) -/

/-- AnalysisPayload of core/framework/messages.py: kpis is a list of dicts,
summary a dict from category to highlight lists, guidance a list of dicts. -/
structure AnalysisPayload where
  ticker : String
  accession_number : String
  kpis : List (List (String × String)) := []
  summary : List (String × List String) := []
  guidance : List (List (String × String)) := []
deriving DecidableEq, Repr

/-- Chunk metadata as built by KnowledgeNodes.chunk_kpi_and_summary. -/
structure ChunkMeta where
  ticker : String
  accession_number : String
  kind : String
deriving DecidableEq, Repr

/-- A chunk dict as passed to HybridRAGEngine.add_documents. -/
structure Chunk where
  id : String
  text : String
  metadata : ChunkMeta
deriving DecidableEq, Repr

/-- KnowledgeNodes.chunk_kpi_and_summary of
core/graph/nodes/knowledge_node.py: none analysis emits no chunks; otherwise
one chunk per KPI (id accession-kpi-idx with idx from 0, text numbering the
KPI from 1) and, when the summary has highlights, one summary chunk with id
accession-summary.  The summary field of an AnalysisPayload is a dict by its
message contract, so the isinstance(dict) guard of the source is always
taken. -/
def chunk_kpi_and_summary (analysis : Option AnalysisPayload) : List Chunk :=
  match analysis with
  | none => []
  | some a =>
      let kpiChunks := a.kpis.enum.map fun p =>
        { id := a.accession_number ++ "-kpi-" ++ toString p.1,
          text := "KPI " ++ toString (p.1 + 1) ++ ": " ++ pyGetD p.2 "metric" "" ++ " = "
                    ++ pyGetD p.2 "value" "",
          metadata := { ticker := a.ticker, accession_number := a.accession_number,
                        kind := "kpi" } : Chunk }
      let highlights := pyGetListD a.summary "highlights" []
      kpiChunks ++
        (if highlights.isEmpty then []
         else [{ id := a.accession_number ++ "-summary",
                 text := "Summary: " ++ String.intercalate " " highlights,
                 metadata := { ticker := a.ticker, accession_number := a.accession_number,
                               kind := "summary" } }])

/-- The chunks table of the SQLite store: rows keyed by primary-key id, in
insertion order, carrying the chunk text. -/
def ChunkStore := List (String × String)

/-- INSERT OR REPLACE of one row into the chunks table: an existing id has
its row replaced, a new id is appended. -/
def upsertChunk (store : List (String × String)) (cid text : String) :
    List (String × String) :=
  if (store.lookup cid).isSome then
    store.map (fun p => if p.1 = cid then (cid, text) else p)
  else store ++ [(cid, text)]

/-- The id used by HybridRAGEngine.add_documents for one chunk:
chunk.get("id") or str(uuid.uuid4()) — a falsy (empty) id is replaced by a
fresh uuid, modelled by an arbitrary fresh-id supply indexed by position. -/
def effectiveChunkId (fresh : ℕ → String) (idx : ℕ) (c : Chunk) : String :=
  if c.id = "" then fresh idx else c.id

/-- HybridRAGEngine.add_documents of core/tools/hybrid_rag.py: upserts each
chunk by id into the chunks table (the BM25 rebuild reads the table and does
not change it). -/
def add_documents (fresh : ℕ → String) (store : List (String × String))
    (chunks : List Chunk) : List (String × String) :=
  (chunks.enum.foldl (fun s p => upsertChunk s (effectiveChunkId fresh p.1 p.2) p.2.text) store)

/-! ## Orchestrator indexing failure handling:
GraphRuntime.index_analysis of core/graph/builder.py -/

/-- IndexReceipt of core/framework/messages.py (timestamp omitted). -/
structure IndexReceipt where
  accession_number : String
  chunk_count : ℕ
deriving DecidableEq, Repr

/-- Observable events of GraphRuntime.index_analysis in execution order. -/
inductive IdxEvent (E : Type) where
  | checkpoint_saved (graph thread : String)
  | status_analyzed_not_indexed (accession : String)
  | log_event (topic : String)
  | reraised (e : E)
deriving DecidableEq, Repr

/-- GraphRuntime.index_analysis of core/graph/builder.py.  The try body
(knowledge-graph invocation, receipt coercion and checkpoint save) is the
tryBody argument: ok carries the receipt, error an exception value.  On
success the checkpoint is saved and INDEX_SUCCESS logged; on any exception
the filing is marked ANALYZED_NOT_INDEXED, INDEX_FAILURE is logged (the
safe logger swallows its own errors) and the same exception is re-raised. -/
def index_analysis {E : Type} (accession : String)
    (tryBody : Except E IndexReceipt) : List (IdxEvent E) × Except E IndexReceipt :=
  match tryBody with
  | .ok receipt =>
      ([.checkpoint_saved "knowledge" accession, .log_event "INDEX_SUCCESS"], .ok receipt)
  | .error e =>
      ([.status_analyzed_not_indexed accession, .log_event "INDEX_FAILURE", .reraised e],
       .error e)

/-! ## Ingestion stage: core/graph/nodes/ingestion_node.py and
GraphRuntime.build_ingestion_graph of core/graph/builder.py -/

/-- The provider FilingRecord fields consulted by the ingestion nodes. -/
structure FilingRecord where
  ticker : String
  accession_number : String
  filing_url : String
  filing_type : String := ""
  metadata : List (String × String) := []
deriving DecidableEq, Repr

/-- One entry of filings_queue as built by IngestionNodes.poll_edgar: the
record's fields plus the raw_text / exhibit_text keys added later (none
while the dict key is absent).  The record field keeps the provider record
used for the text fetches. -/
structure QueuedFiling where
  ticker : String
  accession_number : String
  filing_url : String
  filing_type : String
  metadata : List (String × String)
  record : FilingRecord
  raw_text : Option String := none
  exhibit_text : Option String := none
deriving DecidableEq, Repr

/-- FilingPayload of core/framework/messages.py. -/
structure FilingPayload where
  ticker : String
  accession_number : String
  filing_url : String
  raw_text : String
  metadata : List (String × String)
deriving DecidableEq, Repr

/-- The dict state threaded through the ingestion graph.  current_filing
none models the empty dict.  The mark_ingested write is a state-store side
effect that is never read back within the run (has_accession is consulted
only in poll_edgar), so it is not part of the state. -/
structure IngSt where
  filings_queue : List QueuedFiling := []
  filing_payloads : List FilingPayload := []
  current_filing : Option QueuedFiling := none
  raw_text : String := ""
  trace : List String := []
deriving DecidableEq, Repr

/-- The external collaborators of one ingestion run: the provider's record
batch, the state store's accession membership at poll time, and the document
and exhibit text fetches (none models a None return; find_exhibit_991_text
composed over get_filing_attachments). -/
structure IngestionEnv where
  records : List FilingRecord
  has_accession : String → Bool
  get_filing_text : FilingRecord → Option String
  find_exhibit_991_text : FilingRecord → Option String

/-- Queue entry built by poll_edgar for one provider record. -/
def toQueued (r : FilingRecord) : QueuedFiling :=
  { ticker := r.ticker, accession_number := r.accession_number,
    filing_url := r.filing_url, filing_type := r.filing_type,
    metadata := r.metadata, record := r }

/-- IngestionNodes.poll_edgar: skips records whose accession is already in
the state store and queues the rest in provider order. -/
def poll_edgar (env : IngestionEnv) (s : IngSt) : IngSt :=
  { s with
    filings_queue :=
      (env.records.filter (fun r => !env.has_accession r.accession_number)).map toQueued,
    filing_payloads := [],
    trace := s.trace ++ ["poll_edgar"] }

/-- IngestionNodes.dedupe_check (trace-only step). -/
def dedupe_check (s : IngSt) : IngSt :=
  { s with trace := s.trace ++ ["dedupe_check"] }

/-- IngestionNodes.fetch_full_text.  The source mutates the queue head dict
in place (current = queue(0)), so both the queue head and current_filing
carry the fetched text; `text or ""` maps a None fetch to the empty
string. -/
def fetch_full_text (env : IngestionEnv) (s : IngSt) : IngSt :=
  match s.filings_queue with
  | [] =>
      { s with current_filing := none, raw_text := "",
               trace := s.trace ++ ["fetch_full_text_empty"] }
  | cur :: rest =>
      let text := (env.get_filing_text cur.record).getD ""
      let cur1 := { cur with raw_text := some text }
      { s with filings_queue := cur1 :: rest, current_filing := some cur1,
               raw_text := text, trace := s.trace ++ ["fetch_full_text"] }

/-- IngestionNodes.route_exhibit_logic. -/
def route_exhibit_logic (s : IngSt) : String :=
  if s.current_filing.isNone then "no_payload"
  else if s.raw_text.length ≤ 1000 then "fetch_exhibits"
  else "emit_payload"

/-- IngestionNodes.fetch_exhibits: copies the current dict and stores the
exhibit text (or "") on the copy. -/
def fetch_exhibits (env : IngestionEnv) (s : IngSt) : IngSt :=
  match s.current_filing with
  | none => { s with trace := s.trace ++ ["fetch_exhibits_empty"] }
  | some cur =>
      let ex := (env.find_exhibit_991_text cur.record).getD ""
      { s with current_filing := some { cur with exhibit_text := some ex },
               trace := s.trace ++ ["fetch_exhibits"] }

/-- IngestionNodes.merge_text: appends the exhibit text to the primary text
only when it is non-empty and not already a substring of it.  The empty
current_filing case (unreachable from the graph wiring, which guards it in
route_exhibit_logic) degenerates to an empty merged text as in the
source. -/
def merge_text (s : IngSt) : IngSt :=
  match s.current_filing with
  | none => { s with raw_text := "", trace := s.trace ++ ["merge_text"] }
  | some cur =>
      let raw := cur.raw_text.getD ""
      let ex := cur.exhibit_text.getD ""
      let merged := if ex ≠ "" ∧ ¬(strContains raw ex) then raw ++ "\n\n" ++ ex else raw
      { s with current_filing := some { cur with raw_text := some merged },
               raw_text := merged, trace := s.trace ++ ["merge_text"] }

/-- IngestionNodes.emit_filing_payload: builds the payload from
current_filing, records mark_ingested in the state store (a write never read
back in this run), pops the queue head and clears current_filing. -/
def emit_filing_payload (s : IngSt) : IngSt :=
  match s.current_filing with
  | none => { s with trace := s.trace ++ ["emit_payload_skipped"] }
  | some cur =>
      let payload : FilingPayload :=
        { ticker := cur.ticker, accession_number := cur.accession_number,
          filing_url := cur.filing_url, raw_text := cur.raw_text.getD "",
          metadata := cur.metadata }
      { s with filing_payloads := s.filing_payloads ++ [payload],
               filings_queue := s.filings_queue.tail,
               current_filing := none,
               trace := s.trace ++ ["emit_filing_payload"] }

/-- IngestionNodes.route_continue_or_end. -/
def route_continue_or_end (s : IngSt) : String :=
  if s.filings_queue.isEmpty then "end" else "continue"

/-- Nodes of the ingestion StateGraph. -/
inductive IngNode where
  | poll_edgar
  | dedupe_check
  | fetch_full_text
  | fetch_exhibits
  | merge_text
  | emit_payload
deriving DecidableEq, Repr

/-- Effect of one ingestion node on the state. -/
def ingApply (env : IngestionEnv) : IngNode → IngSt → IngSt
  | .poll_edgar, s => poll_edgar env s
  | .dedupe_check, s => dedupe_check s
  | .fetch_full_text, s => fetch_full_text env s
  | .fetch_exhibits, s => fetch_exhibits env s
  | .merge_text, s => merge_text s
  | .emit_payload, s => emit_filing_payload s

/-- Edges of the ingestion graph as wired in
GraphRuntime.build_ingestion_graph; none is END. -/
def ingNext : IngNode → IngSt → Option IngNode
  | .poll_edgar, _ => some .dedupe_check
  | .dedupe_check, _ => some .fetch_full_text
  | .fetch_full_text, s =>
      match route_exhibit_logic s with
      | "fetch_exhibits" => some .fetch_exhibits
      | "emit_payload" => some .emit_payload
      | _ => none
  | .fetch_exhibits, _ => some .merge_text
  | .merge_text, _ => some .emit_payload
  | .emit_payload, s =>
      if route_continue_or_end s = "continue" then some .fetch_full_text else none

/-- Fuel-indexed interpreter of the ingestion graph; none is fuel
exhaustion. -/
def runIngestion (env : IngestionEnv) : ℕ → IngNode → IngSt → Option IngSt
  | 0, _, _ => none
  | fuel + 1, n, s =>
      let s1 := ingApply env n s
      match ingNext n s1 with
      | none => some s1
      | some n1 => runIngestion env fuel n1 s1

/-- One full invocation of the compiled ingestion graph from the initial
state of GraphRuntime.run_ingestion_cycle. -/
def run_ingestion_graph (env : IngestionEnv) (fuel : ℕ) : Option IngSt :=
  runIngestion env fuel .poll_edgar {}

/-- The raw text the run attaches to the payload of one queued record:
the fetched primary text, merged with the exhibit text when the primary is
at most 1000 characters and the exhibit is non-empty and not already
contained. -/
def emittedText (env : IngestionEnv) (r : FilingRecord) : String :=
  let t := (env.get_filing_text r).getD ""
  if t.length ≤ 1000 then
    let ex := (env.find_exhibit_991_text r).getD ""
    if ex ≠ "" ∧ ¬(strContains t ex) then t ++ "\n\n" ++ ex else t
  else t

/-- The raw text produced by merge_text for one queued record whose primary
and exhibit texts were fetched. -/
def mergedText (env : IngestionEnv) (c : QueuedFiling) : String :=
  let t := (env.get_filing_text c.record).getD ""
  let ex := (env.find_exhibit_991_text c.record).getD ""
  if ex ≠ "" ∧ ¬(strContains t ex) then t ++ "\n\n" ++ ex else t

/-- The payload the run emits for one queued record. -/
def payloadOf (env : IngestionEnv) (q : QueuedFiling) : FilingPayload :=
  { ticker := q.ticker, accession_number := q.accession_number,
    filing_url := q.filing_url, raw_text := emittedText env q.record,
    metadata := q.metadata }

/-- The queue head after fetch_full_text attached the primary text. -/
def fetchedQ (env : IngestionEnv) (c : QueuedFiling) : QueuedFiling :=
  { c with raw_text := some ((env.get_filing_text c.record).getD "") }

/-- The current filing after fetch_exhibits attached the exhibit text. -/
def exhibitedQ (env : IngestionEnv) (c : QueuedFiling) : QueuedFiling :=
  { fetchedQ env c with exhibit_text := some ((env.find_exhibit_991_text c.record).getD "") }

/-- The current filing after merge_text merged the exhibit into the raw
text. -/
def mergedQ (env : IngestionEnv) (c : QueuedFiling) : QueuedFiling :=
  { exhibitedQ env c with raw_text := some (mergedText env c) }

/-- Number of occurrences of needle at any starting position of hay
(the sense in which a text contains a snippet exactly once). -/
def countOcc (needle hay : List Char) : ℕ :=
  (List.range (hay.length + 1)).countP (fun i => needle.isPrefixOf (hay.drop i))


/-! ## Lemmas for claim C1 (reciprocal rank fusion) -/

/-- The fused score accumulated by one enumerate loop equals the previous
score plus the declarative rank-sum contribution of the list. -/
theorem val_accumRRF (k : ℚ) (cid : String) :
    ∀ (results : List SearchResult) (rank : ℕ) (scores : PyDict ℚ),
      (accumRRF k results rank scores).val cid
        = scores.val cid + rrfContrib k cid results rank := by
  intro results
  induction results with
  | nil => intro rank scores; simp [accumRRF, rrfContrib]
  | cons r rest ih =>
      intro rank scores
      simp only [accumRRF, rrfContrib]
      rw [ih]
      by_cases hc : cid = r.chunk_id
      · subst hc
        simp [dictSet]
        ring
      · have hc2 : r.chunk_id ≠ cid := fun hh => hc hh.symm
        simp only [dictSet, if_neg hc, if_neg hc2]
        ring

/-- Every result stored in the lookup dict sits under its own chunk id. -/
theorem accumLookup_chunk_id (cid : String) (base : SearchResult) :
    ∀ (results : List SearchResult) (d : PyDict (Option SearchResult)),
      (∀ b : SearchResult, d.val cid = some b → b.chunk_id = cid) →
      (accumLookup results d).val cid = some base → base.chunk_id = cid := by
  intro results
  induction results with
  | nil => intro d hd h; exact hd base h
  | cons r rest ih =>
      intro d hd h
      refine ih _ ?_ h
      intro b hb
      simp only [dictSet] at hb
      by_cases hc : cid = r.chunk_id
      · rw [if_pos hc] at hb
        cases hb
        exact hc.symm
      · rw [if_neg hc] at hb
        exact hd b hb

/-- Elements of a stable descending insertion are the inserted element and
the old elements. -/
theorem mem_insertDesc (score : String → ℚ) (x a : String) :
    ∀ l : List String, a ∈ insertDesc score x l → a = x ∨ a ∈ l := by
  intro l
  induction l with
  | nil => intro h; simp [insertDesc] at h; exact Or.inl h
  | cons y ys ih =>
      intro h
      simp only [insertDesc] at h
      by_cases hc : score y ≤ score x
      · rw [if_pos hc] at h
        rcases List.mem_cons.mp h with h1 | h1
        · exact Or.inl h1
        · exact Or.inr h1
      · rw [if_neg hc] at h
        rcases List.mem_cons.mp h with h1 | h1
        · exact Or.inr (h1 ▸ List.mem_cons_self y ys)
        · rcases ih h1 with h2 | h2
          · exact Or.inl h2
          · exact Or.inr (List.mem_cons_of_mem y h2)

/-- Stable descending insertion preserves the descending pairwise order. -/
theorem pairwise_insertDesc (score : String → ℚ) (x : String) :
    ∀ l : List String, l.Pairwise (fun a b => score b ≤ score a) →
      (insertDesc score x l).Pairwise (fun a b => score b ≤ score a) := by
  intro l
  induction l with
  | nil => intro _; simp [insertDesc]
  | cons y ys ih =>
      intro h
      rcases List.pairwise_cons.mp h with ⟨hy, hys⟩
      simp only [insertDesc]
      by_cases hc : score y ≤ score x
      · rw [if_pos hc]
        refine List.pairwise_cons.mpr ⟨?_, h⟩
        intro a ha
        rcases List.mem_cons.mp ha with h1 | h1
        · exact h1 ▸ hc
        · exact le_trans (hy a h1) hc
      · rw [if_neg hc]
        refine List.pairwise_cons.mpr ⟨?_, ih hys⟩
        intro a ha
        rcases mem_insertDesc score x a ys ha with h1 | h1
        · exact h1 ▸ le_of_lt (lt_of_not_le hc)
        · exact hy a h1

/-- The stable descending sort is pairwise descending in score. -/
theorem pairwise_sortDesc (score : String → ℚ) (l : List String) :
    (sortDesc score l).Pairwise (fun a b => score b ≤ score a) := by
  induction l with
  | nil => simp [sortDesc]
  | cons x xs ih => exact pairwise_insertDesc score x _ ih

/-- Pairwise order transfer along filterMap. -/
theorem pairwise_filterMap_transfer {α β : Type} {R : α → α → Prop} {S2 : β → β → Prop}
    (f : α → Option β)
    (h : ∀ a b x y, R a b → f a = some x → f b = some y → S2 x y) :
    ∀ l : List α, l.Pairwise R → (l.filterMap f).Pairwise S2 := by
  intro l
  induction l with
  | nil => intro _; simp
  | cons a l ih =>
      intro hp
      rcases List.pairwise_cons.mp hp with ⟨ha, hl⟩
      rw [List.filterMap_cons]
      cases hf : f a with
      | none => exact ih hl
      | some b =>
          refine List.pairwise_cons.mpr ⟨?_, ih hl⟩
          intro y hy
          rcases List.mem_filterMap.mp hy with ⟨a1, ha1, hfa1⟩
          exact h a a1 b y (ha a1 ha1) hf hfa1

/-- filterMap never lengthens a list. -/
theorem length_filterMap_le' {α β : Type} (f : α → Option β) :
    ∀ l : List α, (l.filterMap f).length ≤ l.length := by
  intro l
  induction l with
  | nil => simp
  | cons a l ih =>
      rw [List.filterMap_cons]
      cases f a with
      | none => exact Nat.le_succ_of_le ih
      | some b => simpa using ih

/-- C1: reciprocal_rank_fusion assigns each returned chunk id the score
sum of 1/(60+rank) over the two ranked lists (ranks from 1, absence
contributing 0), returns results sorted by descending fused score and
truncated to top_k, is deterministic for identical inputs, and on the
fixture semantic=[a, b], keyword=[b, a] the fused top-1 result is chunk
a. -/
theorem claim_C1_rrf (semantic keyword : List SearchResult) (top_k : ℕ) :
    (∀ r ∈ reciprocal_rank_fusion semantic keyword top_k 60,
        r.score = rrfContrib 60 r.chunk_id semantic 1 + rrfContrib 60 r.chunk_id keyword 1)
    ∧ (reciprocal_rank_fusion semantic keyword top_k 60).Pairwise
        (fun a b => b.score ≤ a.score)
    ∧ (reciprocal_rank_fusion semantic keyword top_k 60).length ≤ top_k
    ∧ reciprocal_rank_fusion semantic keyword top_k 60
        = reciprocal_rank_fusion semantic keyword top_k 60
    ∧ (reciprocal_rank_fusion
        [{ chunk_id := "a", text := "A", metadata := [], score := 9/10 },
         { chunk_id := "b", text := "B", metadata := [], score := 8/10 }]
        [{ chunk_id := "b", text := "B", metadata := [], score := 11 },
         { chunk_id := "a", text := "A", metadata := [], score := 10 }]
        2 60).head?.map SearchResult.chunk_id = some "a" := by
  have hbase : ∀ (cid : String) (base : SearchResult),
      (accumLookup keyword (accumLookup semantic emptyLookup)).val cid = some base →
      base.chunk_id = cid := by
    intro cid base h
    refine accumLookup_chunk_id cid base keyword _ ?_ h
    intro b hb
    refine accumLookup_chunk_id cid b semantic emptyLookup ?_ hb
    intro b1 hb1
    simp [emptyLookup] at hb1
  have hscore : ∀ cid : String,
      (accumRRF 60 keyword 1 (accumRRF 60 semantic 1 emptyScores)).val cid
        = rrfContrib 60 cid semantic 1 + rrfContrib 60 cid keyword 1 := by
    intro cid
    rw [val_accumRRF, val_accumRRF]
    simp [emptyScores]
  have hfix : (reciprocal_rank_fusion
      [{ chunk_id := "a", text := "A", metadata := [], score := 9/10 },
       { chunk_id := "b", text := "B", metadata := [], score := 8/10 }]
      [{ chunk_id := "b", text := "B", metadata := [], score := 11 },
       { chunk_id := "a", text := "A", metadata := [], score := 10 }]
      2 60).head?.map SearchResult.chunk_id = some "a" := by
    simp only [reciprocal_rank_fusion, accumRRF, accumLookup, emptyScores, emptyLookup,
      dictSet, sortDesc, insertDesc, List.foldr, String.reduceEq, if_false, if_true,
      List.mem_cons, List.mem_singleton, List.not_mem_nil, or_false, false_or]
    split_ifs with hcond
    · simp
    · exfalso
      apply hcond
      push_cast
      norm_num
  refine ⟨?_, ?_, ?_, rfl, hfix⟩
  · intro r hr
    rcases List.mem_filterMap.mp hr with ⟨cid, _, hf⟩
    rcases Option.map_eq_some'.mp hf with ⟨base, hbase1, hr1⟩
    have hcid : base.chunk_id = cid := hbase cid base hbase1
    rw [← hr1]
    simp only
    rw [hcid, hscore]
  · refine @pairwise_filterMap_transfer String SearchResult
      (fun a b => (accumRRF 60 keyword 1 (accumRRF 60 semantic 1 emptyScores)).val b
          ≤ (accumRRF 60 keyword 1 (accumRRF 60 semantic 1 emptyScores)).val a)
      (fun x y => y.score ≤ x.score) _ ?_ _ ?_
    · intro a b x y hab hfa hfb
      rcases Option.map_eq_some'.mp hfa with ⟨b1, _, hx⟩
      rcases Option.map_eq_some'.mp hfb with ⟨b2, _, hy⟩
      rw [← hx, ← hy]
      simpa using hab
    · exact ((pairwise_sortDesc _ _).sublist (List.take_sublist _ _))
  · calc (reciprocal_rank_fusion semantic keyword top_k 60).length
        ≤ ((sortDesc (accumRRF 60 keyword 1 (accumRRF 60 semantic 1 emptyScores)).val
             (accumRRF 60 keyword 1 (accumRRF 60 semantic 1 emptyScores)).keys).take top_k).length :=
          length_filterMap_le' _ _
      _ ≤ top_k := List.length_take_le _ _

/-- Witness for C1: the fused top result of the fixture is a member of the
fusion output and its fused score is the rank sum 1/61 + 1/62 = 123/3782. -/
theorem claim_C1_rrf_witness :
    ({ chunk_id := "a", text := "A", metadata := [], score := 123/3782 } : SearchResult) ∈
      (reciprocal_rank_fusion
        [{ chunk_id := "a", text := "A", metadata := [], score := 9/10 },
         { chunk_id := "b", text := "B", metadata := [], score := 8/10 }]
        [{ chunk_id := "b", text := "B", metadata := [], score := 11 },
         { chunk_id := "a", text := "A", metadata := [], score := 10 }]
        2 60)
    ∧ (123/3782 : ℚ)
        = rrfContrib 60 "a"
            [{ chunk_id := "a", text := "A", metadata := [], score := 9/10 },
             { chunk_id := "b", text := "B", metadata := [], score := 8/10 }] 1
          + rrfContrib 60 "a"
            [{ chunk_id := "b", text := "B", metadata := [], score := 11 },
             { chunk_id := "a", text := "A", metadata := [], score := 10 }] 1 := by
  have hmem : ({ chunk_id := "a", text := "A", metadata := [], score := 123/3782 } : SearchResult) ∈
      (reciprocal_rank_fusion
        [{ chunk_id := "a", text := "A", metadata := [], score := 9/10 },
         { chunk_id := "b", text := "B", metadata := [], score := 8/10 }]
        [{ chunk_id := "b", text := "B", metadata := [], score := 11 },
         { chunk_id := "a", text := "A", metadata := [], score := 10 }]
        2 60) := by
    simp only [reciprocal_rank_fusion, accumRRF, accumLookup, emptyScores, emptyLookup,
      dictSet, sortDesc, insertDesc, List.foldr, String.reduceEq, if_false, if_true,
      List.mem_cons, List.mem_singleton, List.not_mem_nil, or_false, false_or]
    split_ifs with hcond
    · simp only [List.take, List.filterMap_cons, List.filterMap_nil, String.reduceEq,
        if_true, if_false, Option.map_some']
      push_cast
      norm_num
    · exfalso
      apply hcond
      push_cast
      norm_num
  refine ⟨hmem, ?_⟩
  have h1 := (claim_C1_rrf
      [{ chunk_id := "a", text := "A", metadata := [], score := 9/10 },
       { chunk_id := "b", text := "B", metadata := [], score := 8/10 }]
      [{ chunk_id := "b", text := "B", metadata := [], score := 11 },
       { chunk_id := "a", text := "A", metadata := [], score := 10 }] 2).1 _ hmem
  simpa using h1

/-- C2: for every filing payload processed by the analysis graph, the
extraction adapter is invoked at most twice (initial call plus at most one
reflection), for every adapter behaviour and every validation-fallback
oracle; when the final result is invalid the run has already reflected once
and ends in dead_letter, never in a further model call. -/
theorem claim_C2_analysis_retry_bound (extract : Bool → AnalysisDict)
    (llm : AnalysisDict → Bool) :
    ∃ s : AState,
      runAnalysisGraph extract llm 8 .build_prompt {} = .finished s
      ∧ s.extract_calls ≤ 2
      ∧ (s.is_valid_flag = false →
          s.reflection_attempted = true ∧ s.dead_lettered = true ∧ s.emitted = false) := by
  cases h1 : is_valid llm (extract false) with
  | true =>
      refine ⟨{ filing_payload_present := true, analysis_dict := extract false,
                reflection_attempted := false, is_valid_flag := true,
                dead_lettered := false, emitted := true, extract_calls := 1,
                errors := [],
                trace := ["build_prompt", "call_gemini_extract", "validate_json",
                          "emit_analysis_payload"] }, ?_, by norm_num, by simp⟩
      simp [runAnalysisGraph, aApply, aNext, route_after_validation, h1]
  | false =>
      cases h2 : is_valid llm (extract true) with
      | true =>
          refine ⟨{ filing_payload_present := true, analysis_dict := extract true,
                    reflection_attempted := true, is_valid_flag := true,
                    dead_lettered := false, emitted := true, extract_calls := 2,
                    errors := [],
                    trace := ["build_prompt", "call_gemini_extract", "validate_json",
                              "reflection_retry_once", "validate_json",
                              "emit_analysis_payload"] }, ?_, by norm_num, by simp⟩
          simp [runAnalysisGraph, aApply, aNext, route_after_validation, h1, h2]
      | false =>
          refine ⟨{ filing_payload_present := true, analysis_dict := extract true,
                    reflection_attempted := true, is_valid_flag := false,
                    dead_lettered := true, emitted := false, extract_calls := 2,
                    errors := ["analysis_validation_failed"],
                    trace := ["build_prompt", "call_gemini_extract", "validate_json",
                              "reflection_retry_once", "validate_json",
                              "dead_letter"] }, ?_, by norm_num, by simp⟩
          simp [runAnalysisGraph, aApply, aNext, route_after_validation, h1, h2]

/-- Witness for C2: with an adapter that always returns the empty dict and a
fallback oracle that always answers no, the run finishes in dead_letter
after exactly two extraction calls. -/
theorem claim_C2_analysis_retry_bound_witness :
    ∃ s : AState,
      runAnalysisGraph (fun _ => {}) (fun _ => false) 8 .build_prompt {} = .finished s
      ∧ s.extract_calls ≤ 2
      ∧ s.is_valid_flag = false
      ∧ s.reflection_attempted = true ∧ s.dead_lettered = true ∧ s.emitted = false := by
  obtain ⟨s, hs, hc, himp⟩ :=
    claim_C2_analysis_retry_bound (fun _ => {}) (fun _ => false)
  have heval : runAnalysisGraph (fun _ => ({} : AnalysisDict)) (fun _ => false) 8
      .build_prompt {}
      = .finished { filing_payload_present := true, analysis_dict := {},
                    reflection_attempted := true, is_valid_flag := false,
                    dead_lettered := true, emitted := false, extract_calls := 2,
                    errors := ["analysis_validation_failed"],
                    trace := ["build_prompt", "call_gemini_extract", "validate_json",
                              "reflection_retry_once", "validate_json",
                              "dead_letter"] } := rfl
  rw [heval] at hs
  have hsv : s.is_valid_flag = false := by
    cases hs
    rfl
  rcases himp hsv with ⟨hr, hd, he⟩
  exact ⟨s, by rw [heval, hs], hc, hsv, hr, hd, he⟩

/-! ## Association-list lemmas for the extraction engine -/

theorem lookup_cons_ne {β : Type} (rest : List (String × β)) (p : String × β) (k : String)
    (h : p.1 ≠ k) : List.lookup k (p :: rest) = List.lookup k rest := by
  have hb : (k == p.1) = false := by
    simp only [beq_eq_false_iff_ne, ne_eq]
    exact fun hh => h hh.symm
  simp [List.lookup, hb]

theorem lookup_cons_eq {β : Type} (rest : List (String × β)) (p : String × β) (k : String)
    (h : p.1 = k) : List.lookup k (p :: rest) = some p.2 := by
  have hb : (k == p.1) = true := by
    simp [beq_iff_eq, h]
  simp [List.lookup, hb]

theorem lookup_append_left {β : Type} (l1 l2 : List (String × β)) (k : String)
    (h : (l1.lookup k).isSome) : (l1 ++ l2).lookup k = l1.lookup k := by
  induction l1 with
  | nil => simp at h
  | cons p rest ih =>
      by_cases hp : p.1 = k
      · rw [List.cons_append, lookup_cons_eq _ _ _ hp, lookup_cons_eq _ _ _ hp]
      · rw [List.cons_append, lookup_cons_ne _ _ _ hp, lookup_cons_ne _ _ _ hp]
        exact ih (by rwa [lookup_cons_ne _ _ _ hp] at h)

theorem lookup_append_right {β : Type} (l1 l2 : List (String × β)) (k : String)
    (h : l1.lookup k = none) : (l1 ++ l2).lookup k = l2.lookup k := by
  induction l1 with
  | nil => simp
  | cons p rest ih =>
      by_cases hp : p.1 = k
      · rw [lookup_cons_eq _ _ _ hp] at h
        cases h
      · rw [List.cons_append, lookup_cons_ne _ _ _ hp]
        exact ih (by rwa [lookup_cons_ne _ _ _ hp] at h)

theorem lookup_map_replace_self (e : List (String × String)) (k v : String)
    (h : (e.lookup k).isSome) :
    (e.map (fun p => if p.1 = k then (k, v) else p)).lookup k = some v := by
  induction e with
  | nil => simp at h
  | cons p rest ih =>
      simp only [List.map_cons]
      by_cases hp : p.1 = k
      · rw [if_pos hp]
        exact lookup_cons_eq _ (k, v) k rfl
      · rw [if_neg hp, lookup_cons_ne _ _ _ hp]
        exact ih (by rwa [lookup_cons_ne _ _ _ hp] at h)

theorem lookup_map_replace_ne (e : List (String × String)) (k v k1 : String)
    (h : k1 ≠ k) :
    (e.map (fun p => if p.1 = k then (k, v) else p)).lookup k1 = e.lookup k1 := by
  induction e with
  | nil => simp
  | cons p rest ih =>
      simp only [List.map_cons]
      by_cases hp : p.1 = k
      · rw [if_pos hp]
        rw [lookup_cons_ne _ (k, v) k1 (fun hh => h hh.symm)]
        rw [lookup_cons_ne _ p k1 (by rw [hp]; exact fun hh => h hh.symm)]
        exact ih
      · rw [if_neg hp]
        by_cases hq : p.1 = k1
        · rw [lookup_cons_eq _ _ _ hq, lookup_cons_eq _ _ _ hq]
        · rw [lookup_cons_ne _ _ _ hq, lookup_cons_ne _ _ _ hq]
          exact ih

theorem lookup_setKey_self (e : List (String × String)) (k v : String) :
    (setKey e k v).lookup k = some v := by
  unfold setKey
  by_cases h : hasKey e k
  · rw [if_pos h]
    exact lookup_map_replace_self e k v h
  · rw [if_neg h]
    unfold hasKey at h
    have hnone : e.lookup k = none := by
      cases hl : e.lookup k with
      | none => rfl
      | some v1 => rw [hl] at h; simp at h
    rw [lookup_append_right _ _ _ hnone]
    exact lookup_cons_eq _ (k, v) k rfl

theorem lookup_setKey_ne (e : List (String × String)) (k v k1 : String) (h : k1 ≠ k) :
    (setKey e k v).lookup k1 = e.lookup k1 := by
  unfold setKey
  by_cases hs : hasKey e k
  · rw [if_pos hs]
    exact lookup_map_replace_ne e k v k1 h
  · rw [if_neg hs]
    by_cases hl : (e.lookup k1).isSome
    · exact lookup_append_left _ _ _ hl
    · have hnone : e.lookup k1 = none := by
        cases hc : e.lookup k1 with
        | none => rfl
        | some v1 => rw [hc] at hl; simp at hl
      rw [lookup_append_right _ _ _ hnone, hnone]
      exact lookup_cons_ne _ (k, v) k1 (fun hh => h hh.symm) |>.trans (by simp [List.lookup])

theorem lookup_setDefault_self (e : List (String × String)) (k v : String)
    (h : hasKey e k = false) : (setDefault e k v).lookup k = some v := by
  unfold setDefault
  rw [if_neg (by simp [h])]
  unfold hasKey at h
  have hnone : e.lookup k = none := by
    cases hl : e.lookup k with
    | none => rfl
    | some v1 => rw [hl] at h; simp at h
  rw [lookup_append_right _ _ _ hnone]
  exact lookup_cons_eq _ (k, v) k rfl

theorem lookup_setDefault_ne (e : List (String × String)) (k v k1 : String) (h : k1 ≠ k) :
    (setDefault e k v).lookup k1 = e.lookup k1 := by
  unfold setDefault
  by_cases hs : hasKey e k
  · rw [if_pos hs]
  · rw [if_neg hs]
    by_cases hl : (e.lookup k1).isSome
    · exact lookup_append_left _ _ _ hl
    · have hnone : e.lookup k1 = none := by
        cases hc : e.lookup k1 with
        | none => rfl
        | some v1 => rw [hc] at hl; simp at hl
      rw [lookup_append_right _ _ _ hnone, hnone]
      exact lookup_cons_ne _ (k, v) k1 (fun hh => h hh.symm) |>.trans (by simp [List.lookup])

theorem hasKey_setKey_self (e : List (String × String)) (k v : String) :
    hasKey (setKey e k v) k = true := by
  unfold hasKey
  rw [lookup_setKey_self]
  rfl

theorem hasKey_setKey_ne (e : List (String × String)) (k v k1 : String) (h : k1 ≠ k) :
    hasKey (setKey e k v) k1 = hasKey e k1 := by
  unfold hasKey
  rw [lookup_setKey_ne _ _ _ _ h]

theorem hasKey_setDefault_ne (e : List (String × String)) (k v k1 : String) (h : k1 ≠ k) :
    hasKey (setDefault e k v) k1 = hasKey e k1 := by
  unfold hasKey
  rw [lookup_setDefault_ne _ _ _ _ h]

/-- Alias normalisation keeps the metric and value keys of a KPI object. -/
theorem normalizeEl_keys (e1 : List (String × String))
    (h1 : hasKey e1 "metric" = true) (h2 : hasKey e1 "value" = true) :
    ∃ e2, normalizeEl (KpiEl.obj e1) = KpiEl.obj e2
      ∧ hasKey e2 "metric" = true ∧ hasKey e2 "value" = true := by
  simp only [normalizeEl]
  by_cases hany : REVENUE_ALIASES.any
      (fun al => strContains (strLower (pyGetD e1 "metric" "")) al) = true
  · rw [if_pos hany]
    by_cases hrev : pyGetD e1 "metric" "" ≠ "Revenue"
    · rw [if_pos hrev]
      refine ⟨_, rfl, hasKey_setKey_self _ _ _, ?_⟩
      rw [hasKey_setKey_ne _ _ _ _ (by decide),
          hasKey_setDefault_ne _ _ _ _ (by decide)]
      exact h2
    · rw [if_neg hrev]
      exact ⟨e1, rfl, h1, h2⟩
  · rw [if_neg hany]
    exact ⟨e1, rfl, h1, h2⟩

/-- C4: a KPI item whose metric contains a listed revenue alias (for
instance "Net Sales") is returned by extract with its metric normalised to
"Revenue" and with the original metric preserved under the auxiliary
raw_metric key; on such a result, with a non-empty kpis list in which every
item carries both metric and value, is_valid returns true (for every
validation-fallback oracle). -/
theorem claim_C4_revenue_alias (d : AnalysisDict) (els : List KpiEl)
    (e : List (String × String)) (m : String) (llm : AnalysisDict → Bool)
    (hk : d.kpis = some els)
    (he : KpiEl.obj e ∈ els)
    (hm : pyGetD e "metric" "" = m)
    (halias : ∃ al ∈ REVENUE_ALIASES, strContains (strLower m) al = true)
    (hnotrev : m ≠ "Revenue")
    (hraw : hasKey e "raw_metric" = false)
    (hall : ∀ el ∈ els, ∃ e1, el = KpiEl.obj e1
        ∧ hasKey e1 "metric" = true ∧ hasKey e1 "value" = true) :
    ∃ e2,
      (extract_post (some d)).kpis = some (els.map normalizeEl)
      ∧ normalizeEl (KpiEl.obj e) = KpiEl.obj e2
      ∧ KpiEl.obj e2 ∈ els.map normalizeEl
      ∧ pyGetD e2 "metric" "" = "Revenue"
      ∧ e2.lookup "raw_metric" = some m
      ∧ is_valid llm (extract_post (some d)) = true := by
  have hkpis : (extract_post (some d)).kpis = some (els.map normalizeEl) := by
    simp [extract_post, normalize_metric_aliases, hk]
  have hany : REVENUE_ALIASES.any
      (fun al => strContains (strLower (pyGetD e "metric" "")) al) = true := by
    rw [hm]
    rcases halias with ⟨al, hal, hc⟩
    exact List.any_eq_true.mpr ⟨al, hal, hc⟩
  have hnorm : normalizeEl (KpiEl.obj e)
      = KpiEl.obj (setKey (setDefault e "raw_metric" (pyGetD e "metric" ""))
          "metric" "Revenue") := by
    simp only [normalizeEl]
    rw [if_pos hany, if_pos (by rw [hm]; exact hnotrev)]
  set e2 := setKey (setDefault e "raw_metric" (pyGetD e "metric" "")) "metric" "Revenue"
    with he2
  have hmet : pyGetD e2 "metric" "" = "Revenue" := by
    unfold pyGetD
    rw [he2, lookup_setKey_self]
  have hrawm : e2.lookup "raw_metric" = some m := by
    rw [he2, lookup_setKey_ne _ _ _ _ (by decide),
        lookup_setDefault_self _ _ _ hraw, hm]
  have hmem2 : KpiEl.obj e2 ∈ els.map normalizeEl := by
    have := List.mem_map_of_mem normalizeEl he
    rwa [hnorm] at this
  have htruthy : dictTruthy (extract_post (some d)) = true := by
    simp [dictTruthy, hkpis]
  have hne : els.map normalizeEl ≠ [] := by
    intro hnil
    rw [List.map_eq_nil_iff] at hnil
    rw [hnil] at he
    cases he
  have hempty : (els.map normalizeEl).isEmpty = false := by
    simp [List.isEmpty_iff, hne]
  have hcontains : contains_revenue_metric (els.map normalizeEl) = true := by
    unfold contains_revenue_metric
    refine List.any_eq_true.mpr ⟨KpiEl.obj e2, hmem2, ?_⟩
    show REVENUE_ALIASES.any (fun al => strContains (strLower (pyGetD e2 "metric" "")) al) = true
    rw [hmet]
    decide
  refine ⟨e2, hkpis, hnorm, hmem2, hmet, hrawm, ?_⟩
  simp [is_valid, htruthy, hkpis, hempty, hcontains]
  intro x hx
  rcases hall x hx with ⟨e1, heq, h1, h2⟩
  rcases normalizeEl_keys e1 h1 h2 with ⟨e3, hn3, h31, h32⟩
  rw [heq, hn3]
  simp [h31, h32]

/-- Witness for C4: a concrete adapter result with one Net Sales KPI. -/
theorem claim_C4_revenue_alias_witness :
    ∃ e2,
      (extract_post (some
          ⟨some [KpiEl.obj [("metric", "Net Sales"), ("value", "$10B")]], true⟩)).kpis
        = some ([KpiEl.obj [("metric", "Net Sales"), ("value", "$10B")]].map normalizeEl)
      ∧ normalizeEl (KpiEl.obj [("metric", "Net Sales"), ("value", "$10B")]) = KpiEl.obj e2
      ∧ KpiEl.obj e2 ∈ [KpiEl.obj [("metric", "Net Sales"), ("value", "$10B")]].map normalizeEl
      ∧ pyGetD e2 "metric" "" = "Revenue"
      ∧ e2.lookup "raw_metric" = some "Net Sales"
      ∧ is_valid (fun _ => false)
          (extract_post (some
            ⟨some [KpiEl.obj [("metric", "Net Sales"), ("value", "$10B")]], true⟩)) = true := by
  refine claim_C4_revenue_alias _ _ _ _ _ rfl (List.mem_singleton.mpr rfl) (by decide)
      ⟨"net sales", by decide, by decide⟩ (by decide) (by decide) ?_
  intro el hel
  rw [List.mem_singleton.mp hel]
  exact ⟨_, rfl, by decide, by decide⟩

/-! ## Lemmas for claim C5 (confidence clamping) -/

/-- Rounding to 4 decimals keeps a value of the unit interval inside it. -/
theorem roundTo4_bounds (q : ℚ) (h0 : 0 ≤ q) (h1 : q ≤ 1) :
    0 ≤ roundTo4 q ∧ roundTo4 q ≤ 1 := by
  simp only [roundTo4]
  have hs0 : (0 : ℚ) ≤ q * 10000 := by positivity
  have hs1 : q * 10000 ≤ 10000 := by nlinarith
  have hn0 : 0 ≤ ⌊q * 10000⌋ := Int.floor_nonneg.mpr hs0
  have hnle : ((⌊q * 10000⌋ : ℤ) : ℚ) ≤ q * 10000 := Int.floor_le _
  have hb : ∀ r : ℤ, 0 ≤ r → (r : ℚ) ≤ 10000 → 0 ≤ (r : ℚ) / 10000 ∧ (r : ℚ) / 10000 ≤ 1 := by
    intro r hr0 hr1
    constructor
    · positivity
    · rw [div_le_one (by norm_num)]
      exact hr1
  have hsucc : ¬(q * 10000 - ⌊q * 10000⌋ < 1 / 2) → ((⌊q * 10000⌋ : ℤ) : ℚ) + 1 ≤ 10000 := by
    intro hge
    push_neg at hge
    have hq : ((⌊q * 10000⌋ : ℤ) : ℚ) ≤ 10000 - 1 / 2 := by linarith
    have hlt : (⌊q * 10000⌋ : ℤ) < 10000 := by
      have : ((⌊q * 10000⌋ : ℤ) : ℚ) < 10000 := by linarith
      exact_mod_cast this
    have : (⌊q * 10000⌋ : ℤ) + 1 ≤ 10000 := hlt
    exact_mod_cast this
  by_cases hlt : q * 10000 - ⌊q * 10000⌋ < 1 / 2
  · rw [if_pos hlt]
    exact hb _ hn0 (le_trans hnle hs1)
  · rw [if_neg hlt]
    by_cases hgt : 1 / 2 < q * 10000 - ⌊q * 10000⌋
    · rw [if_pos hgt]
      refine hb _ (by omega) ?_
      push_cast
      exact hsucc hlt
    · rw [if_neg hgt]
      by_cases hpar : ⌊q * 10000⌋ % 2 = 0
      · rw [if_pos hpar]
        exact hb _ hn0 (le_trans hnle hs1)
      · rw [if_neg hpar]
        refine hb _ (by omega) ?_
        push_cast
        exact hsucc hlt

/-- C5: a derivation confidence below 0 is clamped to 0, above 1 clamped to
1, in range rounded to 4 decimals and kept inside the unit interval; and
whenever the (stripped) derived answer is empty or matches a non-answer
pattern, derive_metric discards the answer and forces the confidence to
exactly 0. -/
theorem claim_C5_confidence (v : ℚ) (question : String) (ctx : List String)
    (parsed : Option ParsedDerivation) :
    (v < 0 → clamp_confidence (some v) = 0)
    ∧ (1 < v → clamp_confidence (some v) = 1)
    ∧ (0 ≤ v → v ≤ 1 → clamp_confidence (some v) = roundTo4 v
        ∧ 0 ≤ clamp_confidence (some v) ∧ clamp_confidence (some v) ≤ 1)
    ∧ (looks_like_non_answer (pyStrip (parsed.getD {}).derived_answer) = true →
        (derive_metric question ctx parsed).derived_answer = ""
        ∧ (derive_metric question ctx parsed).answer_confidence = 0) := by
  refine ⟨?_, ?_, ?_, ?_⟩
  · intro h
    simp [clamp_confidence, h]
  · intro h
    have hnl : ¬v < 0 := by linarith
    simp [clamp_confidence, hnl, h]
  · intro h0 h1
    have hnl : ¬v < 0 := by linarith
    have hng : ¬1 < v := by linarith
    have heq : clamp_confidence (some v) = roundTo4 v := by
      simp [clamp_confidence, hnl, hng]
    rcases roundTo4_bounds v h0 h1 with ⟨hb0, hb1⟩
    exact ⟨heq, by rw [heq]; exact hb0, by rw [heq]; exact hb1⟩
  · intro hna
    unfold derive_metric
    by_cases hskip : (question = "" || (ctx.take 4).isEmpty) = true
    · rw [if_pos hskip]
      exact ⟨rfl, rfl⟩
    · rw [if_neg hskip]
      by_cases hempty : pyStrip (parsed.getD {}).derived_answer = ""
      · simp only [hempty]
        rw [if_pos (by simp)]
        exact ⟨rfl, rfl⟩
      · rw [if_pos (by simp [hempty, hna])]
        exact ⟨rfl, rfl⟩

/-- Witness for C5 at concrete inputs: -1 clamps to 0, 2 clamps to 1, 1/2
is rounded and stays in range, and the non-answer "unknown" forces
confidence 0. -/
theorem claim_C5_confidence_witness :
    clamp_confidence (some (-1)) = 0
    ∧ clamp_confidence (some 2) = 1
    ∧ clamp_confidence (some (1/2)) = roundTo4 (1/2)
    ∧ (derive_metric "q" ["c"] (some ⟨"unknown", some (84/100), some ["step"]⟩)).derived_answer
        = ""
    ∧ (derive_metric "q" ["c"] (some ⟨"unknown", some (84/100), some ["step"]⟩)).answer_confidence
        = 0 := by
  have h4 := (claim_C5_confidence 0 "q" ["c"]
      (some ⟨"unknown", some (84/100), some ["step"]⟩)).2.2.2 (by decide)
  exact ⟨(claim_C5_confidence (-1) "q" ["c"] none).1 (by norm_num),
    (claim_C5_confidence 2 "q" ["c"] none).2.1 (by norm_num),
    ((claim_C5_confidence (1/2) "q" ["c"] none).2.2.1 (by norm_num) (by norm_num)).1,
    h4.1, h4.2⟩

/-- C6: whenever the knowledge-graph try body raises, index_analysis returns
the very same exception (never swallowed) and the ANALYZED_NOT_INDEXED
status write appears in its effect trace strictly before the re-raise. -/
theorem claim_C6_index_failure {E : Type} (accession : String) (e : E)
    (tryBody : Except E IndexReceipt) (h : tryBody = .error e) :
    (index_analysis accession tryBody).2 = .error e
    ∧ ∃ i j, i < j
        ∧ (index_analysis accession tryBody).1.get? i
            = some (.status_analyzed_not_indexed accession)
        ∧ (index_analysis accession tryBody).1.get? j = some (.reraised e) := by
  subst h
  exact ⟨rfl, 0, 2, by norm_num, rfl, rfl⟩

/-- Witness for C6 at a concrete exception value. -/
theorem claim_C6_index_failure_witness :
    (index_analysis "ACC-7" (.error "db unavailable")).2 = .error "db unavailable"
    ∧ ∃ i j, i < j
        ∧ (index_analysis "ACC-7" (.error "db unavailable")).1.get? i
            = some (.status_analyzed_not_indexed "ACC-7")
        ∧ (index_analysis "ACC-7" (.error "db unavailable")).1.get? j
            = some (.reraised "db unavailable") :=
  claim_C6_index_failure "ACC-7" "db unavailable" _ rfl

/-! ## Lemmas for claim C8 (idempotent indexing) -/

theorem lookup_isSome_iff_mem {β : Type} (l : List (String × β)) (k : String) :
    (l.lookup k).isSome = true ↔ k ∈ l.map Prod.fst := by
  induction l with
  | nil => simp [List.lookup]
  | cons p rest ih =>
      by_cases hp : p.1 = k
      · rw [lookup_cons_eq _ _ _ hp]
        simp [hp]
      · rw [lookup_cons_ne _ _ _ hp]
        simp only [List.map_cons, List.mem_cons]
        rw [ih]
        constructor
        · exact Or.inr
        · intro h
          rcases h with h | h
          · exact absurd h.symm hp
          · exact h

/-- The row ids after one INSERT OR REPLACE. -/
theorem ids_upsertChunk (store : List (String × String)) (cid text : String) :
    (upsertChunk store cid text).map Prod.fst
      = if cid ∈ store.map Prod.fst then store.map Prod.fst
        else store.map Prod.fst ++ [cid] := by
  unfold upsertChunk
  by_cases h : (store.lookup cid).isSome
  · rw [if_pos h, if_pos ((lookup_isSome_iff_mem store cid).mp h)]
    rw [List.map_map]
    apply List.map_congr_left
    intro p _
    by_cases hp : p.1 = cid
    · simp [hp]
    · simp [hp]
  · have hb : (store.lookup cid).isSome = false := by
      cases hc : (store.lookup cid).isSome
      · rfl
      · exact absurd hc h
    rw [if_neg h, if_neg (fun hm => by
      rw [← lookup_isSome_iff_mem store cid] at hm
      exact h hm)]
    simp

theorem snd_mem_of_mem_enumFrom {α : Type} :
    ∀ (l : List α) (n : ℕ) (p : ℕ × α), p ∈ l.enumFrom n → p.2 ∈ l := by
  intro l
  induction l with
  | nil => intro n p h; simp [List.enumFrom] at h
  | cons a rest ih =>
      intro n p h
      simp only [List.enumFrom] at h
      rcases List.mem_cons.mp h with h1 | h1
      · rw [h1]
        exact List.mem_cons_self a rest
      · exact List.mem_cons_of_mem a (ih (n + 1) p h1)

theorem mem_ids_foldl_upsert (fresh : ℕ → String) :
    ∀ (ps : List (ℕ × Chunk)) (store : List (String × String)) (k : String),
      k ∈ store.map Prod.fst →
      k ∈ (ps.foldl (fun s p => upsertChunk s (effectiveChunkId fresh p.1 p.2) p.2.text)
            store).map Prod.fst := by
  intro ps
  induction ps with
  | nil => intro store k h; simpa using h
  | cons p rest ih =>
      intro store k h
      simp only [List.foldl_cons]
      apply ih
      rw [ids_upsertChunk]
      by_cases hm : effectiveChunkId fresh p.1 p.2 ∈ store.map Prod.fst
      · rwa [if_pos hm]
      · rw [if_neg hm]
        exact List.mem_append_left _ h

theorem self_mem_ids_foldl_upsert (fresh : ℕ → String) :
    ∀ (ps : List (ℕ × Chunk)) (store : List (String × String)) (p : ℕ × Chunk),
      p ∈ ps →
      effectiveChunkId fresh p.1 p.2
        ∈ (ps.foldl (fun s q => upsertChunk s (effectiveChunkId fresh q.1 q.2) q.2.text)
            store).map Prod.fst := by
  intro ps
  induction ps with
  | nil => intro store p h; cases h
  | cons q rest ih =>
      intro store p h
      simp only [List.foldl_cons]
      rcases List.mem_cons.mp h with h1 | h1
      · subst h1
        apply mem_ids_foldl_upsert
        rw [ids_upsertChunk]
        by_cases hm : effectiveChunkId fresh p.1 p.2 ∈ store.map Prod.fst
        · rwa [if_pos hm]
        · rw [if_neg hm]
          exact List.mem_append_right _ (List.mem_singleton.mpr rfl)
      · exact ih _ p h1

theorem ids_foldl_upsert_stable (fresh : ℕ → String) :
    ∀ (ps : List (ℕ × Chunk)) (store : List (String × String)),
      (∀ p ∈ ps, effectiveChunkId fresh p.1 p.2 ∈ store.map Prod.fst) →
      (ps.foldl (fun s q => upsertChunk s (effectiveChunkId fresh q.1 q.2) q.2.text)
          store).map Prod.fst = store.map Prod.fst := by
  intro ps
  induction ps with
  | nil => intro store _; rfl
  | cons q rest ih =>
      intro store h
      simp only [List.foldl_cons]
      have hq : effectiveChunkId fresh q.1 q.2 ∈ store.map Prod.fst :=
        h q (List.mem_cons_self q rest)
      have hids : (upsertChunk store (effectiveChunkId fresh q.1 q.2) q.2.text).map Prod.fst
          = store.map Prod.fst := by
        rw [ids_upsertChunk, if_pos hq]
      rw [ih _ (fun p hp => by rw [hids]; exact h p (List.mem_cons_of_mem q hp)), hids]

/-- Every chunk built by chunk_kpi_and_summary has a non-empty id, so the
uuid fallback of add_documents is never taken for them. -/
theorem chunk_ids_nonempty (a : AnalysisPayload) :
    ∀ c ∈ chunk_kpi_and_summary (some a), c.id ≠ "" := by
  intro c hc
  simp only [chunk_kpi_and_summary] at hc
  rcases List.mem_append.mp hc with h | h
  · rcases List.mem_map.mp h with ⟨p, _, hp⟩
    intro hid
    rw [← hp] at hid
    simp only at hid
    have hlen := congrArg String.length hid
    rw [String.length_append, String.length_append] at hlen
    have h5 : ("-kpi-" : String).length = 5 := rfl
    have h0 : ("" : String).length = 0 := rfl
    rw [h5, h0] at hlen
    omega
  · by_cases hh : (pyGetListD a.summary "highlights" []).isEmpty
    · rw [if_pos hh] at h
      cases h
    · rw [if_neg hh] at h
      rcases List.mem_singleton.mp h with rfl
      intro hid
      simp only at hid
      have hlen := congrArg String.length hid
      rw [String.length_append] at hlen
      have h8 : ("-summary" : String).length = 8 := rfl
      have h0 : ("" : String).length = 0 := rfl
      rw [h8, h0] at hlen
      omega

/-- C8: chunking is deterministic (the same payload yields the same chunk
ids on both runs) and re-indexing the same payload leaves the chunk store
with the same row ids and the same final row count as indexing it once,
whatever uuids the two runs would draw. -/
theorem claim_C8_idempotent_indexing (a : AnalysisPayload)
    (store : List (String × String)) (fresh1 fresh2 : ℕ → String) :
    (chunk_kpi_and_summary (some a)).map Chunk.id
      = (chunk_kpi_and_summary (some a)).map Chunk.id
    ∧ (add_documents fresh2 (add_documents fresh1 store (chunk_kpi_and_summary (some a)))
          (chunk_kpi_and_summary (some a))).map Prod.fst
        = (add_documents fresh1 store (chunk_kpi_and_summary (some a))).map Prod.fst
    ∧ (add_documents fresh2 (add_documents fresh1 store (chunk_kpi_and_summary (some a)))
          (chunk_kpi_and_summary (some a))).length
        = (add_documents fresh1 store (chunk_kpi_and_summary (some a))).length := by
  have hne := chunk_ids_nonempty a
  have heff : ∀ (fr : ℕ → String) (p : ℕ × Chunk),
      p ∈ (chunk_kpi_and_summary (some a)).enum →
      effectiveChunkId fr p.1 p.2 = p.2.id := by
    intro fr p hp
    have : p.2 ∈ chunk_kpi_and_summary (some a) := snd_mem_of_mem_enumFrom _ 0 p hp
    unfold effectiveChunkId
    rw [if_neg (hne p.2 this)]
  have hin : ∀ p ∈ (chunk_kpi_and_summary (some a)).enum,
      effectiveChunkId fresh2 p.1 p.2
        ∈ (add_documents fresh1 store (chunk_kpi_and_summary (some a))).map Prod.fst := by
    intro p hp
    rw [heff fresh2 p hp, ← heff fresh1 p hp]
    exact self_mem_ids_foldl_upsert fresh1 _ store p hp
  have hstable := ids_foldl_upsert_stable fresh2 (chunk_kpi_and_summary (some a)).enum
      (add_documents fresh1 store (chunk_kpi_and_summary (some a))) hin
  refine ⟨rfl, ?_, ?_⟩
  · exact hstable
  · have := congrArg List.length hstable
    rwa [List.length_map, List.length_map] at this

/-! ## Lemmas and theorems for claim C9 (chunk shapes) -/

theorem get?_enumFrom {α : Type} :
    ∀ (l : List α) (n i : ℕ),
      (l.enumFrom n).get? i = (l.get? i).map (fun a => (n + i, a)) := by
  intro l
  induction l with
  | nil => intro n i; simp [List.enumFrom]
  | cons a rest ih =>
      intro n i
      cases i with
      | zero => simp [List.enumFrom]
      | succ j =>
          simp only [List.enumFrom, List.get?_cons_succ]
          rw [ih (n + 1) j]
          cases rest.get? j with
          | none => simp
          | some b =>
              simp only [Option.map_some']
              congr 2
              omega

/-- C9 counterexample: the summary chunk of a concrete AnalysisPayload has
id ACC-summary, which is not of the claimed form accession-kind-index (no
index component), so the id-shape clause of the claim fails. -/
theorem claim_C9_counterexample :
    ¬ (∀ c ∈ chunk_kpi_and_summary
          (some { ticker := "T", accession_number := "ACC", kpis := [],
                  summary := [("highlights", ["h"])], guidance := [] }),
        ∃ n : ℕ, c.id = "ACC" ++ "-" ++ c.metadata.kind ++ "-" ++ toString n) := by
  intro h
  have hc : (⟨"ACC-summary", "Summary: h", ⟨"T", "ACC", "summary"⟩⟩ : Chunk)
      ∈ chunk_kpi_and_summary
        (some { ticker := "T", accession_number := "ACC", kpis := [],
                summary := [("highlights", ["h"])], guidance := [] }) := by
    simp [chunk_kpi_and_summary, pyGetListD, List.lookup]
    decide
  rcases h _ hc with ⟨n, hn⟩
  simp only at hn
  have hlen := congrArg String.length hn
  have h1 : ("ACC-summary" : String).length = 11 := rfl
  have h2 : ("ACC" : String).length = 3 := rfl
  have h3 : ("-" : String).length = 1 := rfl
  have h4 : ("summary" : String).length = 7 := rfl
  simp only [String.length_append, h1, h2, h3, h4] at hlen
  omega

/-- C9 amended: the Knowledge chunking step emits no chunks (and no error)
for an absent AnalysisPayload; otherwise exactly one chunk per KPI (text
"KPI n: metric = value" with n counted from 1, id accession-kpi-(n-1)) plus,
exactly when highlights exist, one summary chunk whose id is
accession-summary with no index component. -/
theorem claim_C9_chunk_shapes (a : AnalysisPayload) :
    chunk_kpi_and_summary none = []
    ∧ (chunk_kpi_and_summary (some a)).length
        = a.kpis.length + (if (pyGetListD a.summary "highlights" []).isEmpty then 0 else 1)
    ∧ (∀ (i : ℕ) (kpi : List (String × String)), a.kpis.get? i = some kpi →
        (chunk_kpi_and_summary (some a)).get? i = some {
          id := a.accession_number ++ "-kpi-" ++ toString i,
          text := "KPI " ++ toString (i + 1) ++ ": " ++ pyGetD kpi "metric" "" ++ " = "
                    ++ pyGetD kpi "value" "",
          metadata := { ticker := a.ticker, accession_number := a.accession_number,
                        kind := "kpi" } })
    ∧ (pyGetListD a.summary "highlights" [] ≠ [] →
        (chunk_kpi_and_summary (some a)).get? a.kpis.length = some {
          id := a.accession_number ++ "-summary",
          text := "Summary: " ++ String.intercalate " " (pyGetListD a.summary "highlights" []),
          metadata := { ticker := a.ticker, accession_number := a.accession_number,
                        kind := "summary" } }) := by
  have hklen : (a.kpis.enum.map (fun p =>
      ({ id := a.accession_number ++ "-kpi-" ++ toString p.1,
         text := "KPI " ++ toString (p.1 + 1) ++ ": " ++ pyGetD p.2 "metric" "" ++ " = "
                   ++ pyGetD p.2 "value" "",
         metadata := { ticker := a.ticker, accession_number := a.accession_number,
                       kind := "kpi" } } : Chunk))).length = a.kpis.length := by
    rw [List.length_map, List.enum_length]
  refine ⟨rfl, ?_, ?_, ?_⟩
  · simp only [chunk_kpi_and_summary]
    rw [List.length_append, hklen]
    by_cases hh : (pyGetListD a.summary "highlights" []).isEmpty
    · rw [if_pos hh, if_pos hh]
      rfl
    · rw [if_neg hh, if_neg hh]
      rfl
  · intro i kpi hkpi
    have hi : i < a.kpis.length := by
      by_contra hge
      rw [List.get?_eq_none.mpr (by omega)] at hkpi
      cases hkpi
    simp only [chunk_kpi_and_summary]
    rw [List.get?_append (by rw [hklen]; exact hi), List.get?_map, List.enum,
        get?_enumFrom, hkpi]
    simp
  · intro hh
    simp only [chunk_kpi_and_summary]
    rw [List.get?_append_right (by rw [hklen]), hklen, Nat.sub_self,
        if_neg (by simpa [List.isEmpty_iff] using hh)]
    rfl

/-- Witness for C9 (amended) at a concrete payload: one KPI chunk with id
ACC-kpi-0 and text numbered from 1, and the summary chunk with id
ACC-summary. -/
theorem claim_C9_chunk_shapes_witness :
    (chunk_kpi_and_summary (some ⟨"T", "ACC", [[("metric", "Revenue"), ("value", "5")]],
        [("highlights", ["h"])], []⟩)).get? 0
      = some ⟨"ACC-kpi-0", "KPI 1: Revenue = 5", ⟨"T", "ACC", "kpi"⟩⟩
    ∧ (chunk_kpi_and_summary (some ⟨"T", "ACC", [[("metric", "Revenue"), ("value", "5")]],
        [("highlights", ["h"])], []⟩)).get? 1
      = some ⟨"ACC-summary", "Summary: h", ⟨"T", "ACC", "summary"⟩⟩ := by
  have h := claim_C9_chunk_shapes
    ⟨"T", "ACC", [[("metric", "Revenue"), ("value", "5")]], [("highlights", ["h"])], []⟩
  have h0 := h.2.2.1 0 [("metric", "Revenue"), ("value", "5")] rfl
  have h1 := h.2.2.2 (by decide)
  exact ⟨h0.trans (by decide), h1.trans (by decide)⟩

/-! ## Interpreter lemmas for the ingestion graph (claims C3, C7, C10) -/

/-- One continuing step of the ingestion interpreter. -/
theorem run_cont (env : IngestionEnv) (fuel : ℕ) (n n1 : IngNode) (s s1 : IngSt)
    (ha : ingApply env n s = s1) (h : ingNext n s1 = some n1) :
    runIngestion env (fuel + 1) n s = runIngestion env fuel n1 s1 := by
  simp [runIngestion, ha, h]

/-- One terminating step of the ingestion interpreter. -/
theorem run_stop (env : IngestionEnv) (fuel : ℕ) (n : IngNode) (s s1 : IngSt)
    (ha : ingApply env n s = s1) (h : ingNext n s1 = none) :
    runIngestion env (fuel + 1) n s = some s1 := by
  simp [runIngestion, ha, h]

/-- Extra fuel never changes a run that already terminated. -/
theorem runIngestion_succ (env : IngestionEnv) :
    ∀ (fuel : ℕ) (n : IngNode) (s t : IngSt),
      runIngestion env fuel n s = some t → runIngestion env (fuel + 1) n s = some t := by
  intro fuel
  induction fuel with
  | zero => intro n s t h; simp [runIngestion] at h
  | succ f ih =>
      intro n s t h
      cases hnext : ingNext n (ingApply env n s) with
      | none =>
          rw [run_stop env f n s _ rfl hnext] at h
          rw [run_stop env (f + 1) n s _ rfl hnext]
          exact h
      | some n1 =>
          rw [run_cont env f n n1 s _ rfl hnext] at h
          rw [run_cont env (f + 1) n n1 s _ rfl hnext]
          exact ih n1 _ t h


/-- The ingestion loop starting at fetch_full_text: it terminates within
4q+1 steps, pops exactly the queue head on each emit pass, emits one payload
per queued record in provider order, and traces exactly one
emit_filing_payload entry per record. -/
theorem ing_loop (env : IngestionEnv) :
    ∀ (q : List QueuedFiling) (pl : List FilingPayload) (cf : Option QueuedFiling)
      (rt : String) (tr : List String),
      ∃ (tr2 : List String) (rt2 : String),
        runIngestion env (4 * q.length + 1) .fetch_full_text ⟨q, pl, cf, rt, tr⟩
          = some ⟨[], pl ++ q.map (payloadOf env), none, rt2, tr2⟩
        ∧ tr2.count "emit_filing_payload" = tr.count "emit_filing_payload" + q.length := by
  intro q
  induction q with
  | nil =>
      intro pl cf rt tr
      refine ⟨tr ++ ["fetch_full_text_empty"], "", ?_, ?_⟩
      · rw [show 4 * ([] : List QueuedFiling).length + 1 = 0 + 1 from rfl]
        rw [run_stop env 0 .fetch_full_text ⟨[], pl, cf, rt, tr⟩
            ⟨[], pl, none, "", tr ++ ["fetch_full_text_empty"]⟩ rfl rfl]
        simp
      · simp [List.count_append, List.count_cons, List.count_nil]
  | cons c rest ih =>
      intro pl cf rt tr
      have hfuel : 4 * (c :: rest).length + 1
          = ((((4 * rest.length + 1) + 1) + 1) + 1) + 1 := by
        simp [List.length_cons]
        ring
      rw [hfuel]
      by_cases hlen : ((env.get_filing_text c.record).getD "").length ≤ 1000
      · -- short primary text: exhibit path (4 node executions per record)
        rw [run_cont env _ .fetch_full_text .fetch_exhibits
            ⟨c :: rest, pl, cf, rt, tr⟩
            ⟨fetchedQ env c :: rest, pl, some (fetchedQ env c),
              (env.get_filing_text c.record).getD "", tr ++ ["fetch_full_text"]⟩
            rfl (by simp [ingNext, route_exhibit_logic, fetchedQ, hlen])]
        rw [run_cont env _ .fetch_exhibits .merge_text
            ⟨fetchedQ env c :: rest, pl, some (fetchedQ env c),
              (env.get_filing_text c.record).getD "", tr ++ ["fetch_full_text"]⟩
            ⟨fetchedQ env c :: rest, pl, some (exhibitedQ env c),
              (env.get_filing_text c.record).getD "",
              (tr ++ ["fetch_full_text"]) ++ ["fetch_exhibits"]⟩
            rfl rfl]
        rw [run_cont env _ .merge_text .emit_payload
            ⟨fetchedQ env c :: rest, pl, some (exhibitedQ env c),
              (env.get_filing_text c.record).getD "",
              (tr ++ ["fetch_full_text"]) ++ ["fetch_exhibits"]⟩
            ⟨fetchedQ env c :: rest, pl, some (mergedQ env c), mergedText env c,
              ((tr ++ ["fetch_full_text"]) ++ ["fetch_exhibits"]) ++ ["merge_text"]⟩
            rfl rfl]
        have hpay : (⟨c.ticker, c.accession_number, c.filing_url, mergedText env c,
            c.metadata⟩ : FilingPayload) = payloadOf env c := by
          simp [payloadOf, emittedText, mergedText, hlen]
        cases rest with
        | nil =>
            rw [run_stop env _ .emit_payload
                ⟨fetchedQ env c :: [], pl, some (mergedQ env c), mergedText env c,
                  ((tr ++ ["fetch_full_text"]) ++ ["fetch_exhibits"]) ++ ["merge_text"]⟩
                ⟨[], pl ++ [⟨c.ticker, c.accession_number, c.filing_url, mergedText env c,
                    c.metadata⟩], none, mergedText env c,
                  (((tr ++ ["fetch_full_text"]) ++ ["fetch_exhibits"]) ++ ["merge_text"])
                    ++ ["emit_filing_payload"]⟩ (by rfl) rfl]
            refine ⟨(((tr ++ ["fetch_full_text"]) ++ ["fetch_exhibits"]) ++ ["merge_text"])
                ++ ["emit_filing_payload"], mergedText env c, ?_, ?_⟩
            · rw [hpay]
              simp
            · simp [List.count_append, List.count_cons, List.count_nil]
        | cons c2 rest2 =>
            rw [run_cont env _ .emit_payload .fetch_full_text
                ⟨fetchedQ env c :: (c2 :: rest2), pl, some (mergedQ env c), mergedText env c,
                  ((tr ++ ["fetch_full_text"]) ++ ["fetch_exhibits"]) ++ ["merge_text"]⟩
                ⟨c2 :: rest2, pl ++ [⟨c.ticker, c.accession_number, c.filing_url,
                    mergedText env c, c.metadata⟩], none, mergedText env c,
                  (((tr ++ ["fetch_full_text"]) ++ ["fetch_exhibits"]) ++ ["merge_text"])
                    ++ ["emit_filing_payload"]⟩ (by rfl) rfl]
            rcases ih (pl ++ [⟨c.ticker, c.accession_number, c.filing_url, mergedText env c,
                c.metadata⟩]) none (mergedText env c)
                ((((tr ++ ["fetch_full_text"]) ++ ["fetch_exhibits"]) ++ ["merge_text"])
                  ++ ["emit_filing_payload"]) with ⟨tr2, rt2, hrun, hcount⟩
            refine ⟨tr2, rt2, ?_, ?_⟩
            · rw [hrun, hpay]
              simp
            · rw [hcount]
              simp [List.count_append, List.count_cons, List.count_nil]
              omega
      · -- long primary text: direct emit (2 node executions per record)
        rw [run_cont env _ .fetch_full_text .emit_payload
            ⟨c :: rest, pl, cf, rt, tr⟩
            ⟨fetchedQ env c :: rest, pl, some (fetchedQ env c),
              (env.get_filing_text c.record).getD "", tr ++ ["fetch_full_text"]⟩
            rfl (by simp [ingNext, route_exhibit_logic, fetchedQ, hlen])]
        have hpay : (⟨c.ticker, c.accession_number, c.filing_url,
            (env.get_filing_text c.record).getD "", c.metadata⟩ : FilingPayload)
            = payloadOf env c := by
          simp [payloadOf, emittedText, hlen]
        cases rest with
        | nil =>
            rw [run_stop env _ .emit_payload
                ⟨fetchedQ env c :: [], pl, some (fetchedQ env c),
                  (env.get_filing_text c.record).getD "", tr ++ ["fetch_full_text"]⟩
                ⟨[], pl ++ [⟨c.ticker, c.accession_number, c.filing_url,
                    (env.get_filing_text c.record).getD "", c.metadata⟩], none,
                  (env.get_filing_text c.record).getD "",
                  (tr ++ ["fetch_full_text"]) ++ ["emit_filing_payload"]⟩ (by rfl) rfl]
            refine ⟨(tr ++ ["fetch_full_text"]) ++ ["emit_filing_payload"],
                (env.get_filing_text c.record).getD "", ?_, ?_⟩
            · rw [hpay]
              simp
            · simp [List.count_append, List.count_cons, List.count_nil]
        | cons c2 rest2 =>
            rw [run_cont env _ .emit_payload .fetch_full_text
                ⟨fetchedQ env c :: (c2 :: rest2), pl, some (fetchedQ env c),
                  (env.get_filing_text c.record).getD "", tr ++ ["fetch_full_text"]⟩
                ⟨c2 :: rest2, pl ++ [⟨c.ticker, c.accession_number, c.filing_url,
                    (env.get_filing_text c.record).getD "", c.metadata⟩], none,
                  (env.get_filing_text c.record).getD "",
                  (tr ++ ["fetch_full_text"]) ++ ["emit_filing_payload"]⟩ (by rfl) rfl]
            rcases ih (pl ++ [⟨c.ticker, c.accession_number, c.filing_url,
                (env.get_filing_text c.record).getD "", c.metadata⟩]) none
                ((env.get_filing_text c.record).getD "")
                ((tr ++ ["fetch_full_text"]) ++ ["emit_filing_payload"]) with
              ⟨tr2, rt2, hrun, hcount⟩
            refine ⟨tr2, rt2, ?_, ?_⟩
            · rw [runIngestion_succ env _ _ _ _ (runIngestion_succ env _ _ _ _ hrun), hpay]
              simp
            · rw [hcount]
              simp [List.count_append, List.count_cons, List.count_nil]
              omega

/-- Any larger fuel also suffices for a terminated run. -/
theorem runIngestion_le (env : IngestionEnv) (f g : ℕ) (h : f ≤ g) (n : IngNode)
    (s t : IngSt) (hr : runIngestion env f n s = some t) :
    runIngestion env g n s = some t := by
  induction g with
  | zero =>
      have hf : f = 0 := Nat.le_zero.mp h
      subst hf
      simp [runIngestion] at hr
  | succ g ih =>
      rcases Nat.lt_or_ge f (g + 1) with hlt | hge
      · exact runIngestion_succ env g n s t (ih (Nat.lt_succ_iff.mp hlt))
      · have hfg : f = g + 1 := le_antisymm h hge
        subst hfg
        exact hr

/-- One full ingestion-graph invocation: with fuel linear in the provider
batch it terminates with an empty queue, one payload per deduplicated
record in order, and one emit trace entry per payload. -/
theorem ing_run (env : IngestionEnv) :
    ∃ (tr2 : List String) (rt2 : String),
      run_ingestion_graph env (4 * env.records.length + 3)
        = some ⟨[], ((env.records.filter (fun r => !env.has_accession r.accession_number)).map
            toQueued).map (payloadOf env), none, rt2, tr2⟩
      ∧ tr2.count "emit_filing_payload"
          = (env.records.filter (fun r => !env.has_accession r.accession_number)).length := by
  obtain ⟨tr2, rt2, hrun, hcount⟩ := ing_loop env ((env.records.filter
      (fun r => !env.has_accession r.accession_number)).map toQueued) [] none ""
      (([] ++ ["poll_edgar"]) ++ ["dedupe_check"])
  have hqlen : ((env.records.filter (fun r => !env.has_accession r.accession_number)).map
      toQueued).length
      = (env.records.filter (fun r => !env.has_accession r.accession_number)).length :=
    List.length_map _ _
  refine ⟨tr2, rt2, ?_, ?_⟩
  · unfold run_ingestion_graph
    apply runIngestion_le env
        (((4 * ((env.records.filter (fun r => !env.has_accession r.accession_number)).map
            toQueued).length + 1) + 1) + 1)
        (4 * env.records.length + 3)
        (by
          have := List.length_filter_le (fun r => !env.has_accession r.accession_number)
            env.records
          omega)
    rw [run_cont env _ .poll_edgar .dedupe_check ⟨[], [], none, "", []⟩
        ⟨(env.records.filter (fun r => !env.has_accession r.accession_number)).map toQueued,
          [], none, "", [] ++ ["poll_edgar"]⟩ rfl rfl]
    rw [run_cont env _ .dedupe_check .fetch_full_text
        ⟨(env.records.filter (fun r => !env.has_accession r.accession_number)).map toQueued,
          [], none, "", [] ++ ["poll_edgar"]⟩
        ⟨(env.records.filter (fun r => !env.has_accession r.accession_number)).map toQueued,
          [], none, "", ([] ++ ["poll_edgar"]) ++ ["dedupe_check"]⟩ rfl rfl]
    exact hrun
  · rw [hcount, hqlen]
    simp [List.count_append, List.count_cons, List.count_nil]

theorem filter_length_split {α : Type} (p : α → Bool) (l : List α) :
    (l.filter p).length + (l.filter (fun a => !(p a))).length = l.length := by
  induction l with
  | nil => simp
  | cons a rest ih =>
      cases hpa : p a <;> simp [List.filter_cons, hpa] <;> omega

/-- C3: over N provider records of which exactly M are already known to the
state store, one ingestion run emits exactly N−M payloads, and (with the
spec's data-model invariant that accession ids are unique within a market
batch) no two emitted payloads carry the same accession id. -/
theorem claim_C3_dedupe (env : IngestionEnv) (N M : ℕ)
    (hN : env.records.length = N)
    (hM : (env.records.filter (fun r => env.has_accession r.accession_number)).length = M)
    (hnodup : (env.records.map (fun r => r.accession_number)).Nodup) :
    ∃ s : IngSt,
      run_ingestion_graph env (4 * N + 3) = some s
      ∧ s.filing_payloads.length = N - M
      ∧ (s.filing_payloads.map (fun p => p.accession_number)).Nodup := by
  obtain ⟨tr2, rt2, hrun, _⟩ := ing_run env
  subst hN
  refine ⟨_, hrun, ?_, ?_⟩
  · simp only [List.length_map]
    have := filter_length_split (fun r => env.has_accession r.accession_number) env.records
    omega
  · have hacc : ((((env.records.filter
        (fun r => !env.has_accession r.accession_number)).map toQueued).map
          (payloadOf env)).map (fun p => p.accession_number))
        = (env.records.filter (fun r => !env.has_accession r.accession_number)).map
            (fun r => r.accession_number) := by
      rw [List.map_map, List.map_map]
      rfl
    simp only [hacc]
    have hsub : ((env.records.filter (fun r => !env.has_accession r.accession_number)).map
        (fun r => r.accession_number)).Sublist
        (env.records.map (fun r => r.accession_number)) :=
      (List.filter_sublist _).map _
    exact hnodup.sublist hsub

/-- Witness for C3 at a concrete two-record batch with one known
accession. -/
theorem claim_C3_dedupe_witness :
    ∃ s : IngSt,
      run_ingestion_graph
        ⟨[⟨"MSFT", "A1", "http://sec/A1", "8-K", []⟩, ⟨"MSFT", "A2", "http://sec/A2", "8-K", []⟩],
          fun a => a = "A1", fun _ => some "short", fun _ => none⟩ (4 * 2 + 3) = some s
      ∧ s.filing_payloads.length = 2 - 1
      ∧ (s.filing_payloads.map (fun p => p.accession_number)).Nodup := by
  exact claim_C3_dedupe
    ⟨[⟨"MSFT", "A1", "http://sec/A1", "8-K", []⟩, ⟨"MSFT", "A2", "http://sec/A2", "8-K", []⟩],
      fun a => a = "A1", fun _ => some "short", fun _ => none⟩ 2 1 rfl (by decide) (by decide)

/-- C7 counterexample: with primary text "foo foo" (7 chars, below the 1000
threshold) and exhibit "foo", the exhibit is already a substring of the
primary, nothing is appended, and the emitted raw text contains the exhibit
text twice — not exactly once as the claim states. -/
theorem claim_C7_counterexample :
    ("foo foo".length ≤ 1000 ∧ "foo" ≠ "")
    ∧ (run_ingestion_graph ⟨[⟨"MSFT", "A1", "http://x", "8-K", []⟩], fun _ => false,
        fun _ => some "foo foo", fun _ => some "foo"⟩ 7).map
        (fun s => s.filing_payloads.map (fun p => countOcc "foo".data p.raw_text.data))
        = some [2]
    ∧ ¬ ((run_ingestion_graph ⟨[⟨"MSFT", "A1", "http://x", "8-K", []⟩], fun _ => false,
        fun _ => some "foo foo", fun _ => some "foo"⟩ 7).map
        (fun s => s.filing_payloads.map (fun p => countOcc "foo".data p.raw_text.data))
        = some [1]) := by
  refine ⟨⟨by decide, by decide⟩, by decide, by decide⟩

/-- C7 amended: when the fetched primary text is at most 1000 characters and
a non-empty exhibit is found, the emitted payload's raw text contains the
exhibit text (at least once); the exhibit is appended — raw text becomes
primary ++ separator ++ exhibit — exactly when it is not already a
substring of the primary text, and the raw text stays the primary text
otherwise. -/
theorem claim_C7_exhibit_merge (env : IngestionEnv) (r : FilingRecord)
    (hmem : r ∈ env.records)
    (hnew : env.has_accession r.accession_number = false)
    (hlen : ((env.get_filing_text r).getD "").length ≤ 1000)
    (hex : (env.find_exhibit_991_text r).getD "" ≠ "") :
    ∃ s : IngSt, run_ingestion_graph env (4 * env.records.length + 3) = some s
      ∧ ∃ p ∈ s.filing_payloads,
          p.accession_number = r.accession_number
          ∧ p.raw_text = (if strContains ((env.get_filing_text r).getD "")
                ((env.find_exhibit_991_text r).getD "") = true
              then (env.get_filing_text r).getD ""
              else ((env.get_filing_text r).getD "") ++ "\n\n"
                  ++ ((env.find_exhibit_991_text r).getD ""))
          ∧ strContains p.raw_text ((env.find_exhibit_991_text r).getD "") = true := by
  obtain ⟨tr2, rt2, hrun, _⟩ := ing_run env
  refine ⟨_, hrun, payloadOf env (toQueued r), ?_, rfl, ?_, ?_⟩
  · simp only
    refine List.mem_map_of_mem (payloadOf env) ?_
    refine List.mem_map_of_mem toQueued ?_
    rw [List.mem_filter]
    exact ⟨hmem, by rw [hnew]; rfl⟩
  · show emittedText env r = _
    unfold emittedText
    rw [if_pos hlen]
    by_cases hc : strContains ((env.get_filing_text r).getD "")
        ((env.find_exhibit_991_text r).getD "") = true
    · rw [if_pos hc, if_neg (by simp [hc])]
    · rw [if_neg hc, if_pos ⟨hex, by simpa using hc⟩]
  · show strContains (emittedText env r) _ = true
    unfold emittedText
    rw [if_pos hlen]
    by_cases hc : strContains ((env.get_filing_text r).getD "")
        ((env.find_exhibit_991_text r).getD "") = true
    · rw [if_neg (by simp [hc])]
      exact hc
    · rw [if_pos ⟨hex, by simpa using hc⟩]
      unfold strContains
      apply decide_eq_true
      have hsuf : ((env.find_exhibit_991_text r).getD "").data
          <:+ (((env.get_filing_text r).getD "") ++ "\n\n"
              ++ ((env.find_exhibit_991_text r).getD "")).data := by
        rw [String.data_append]
        exact List.suffix_append _ _
      exact hsuf.isInfix

/-- Witness for C7 (amended) at the exhibit-fallback fixture: short cover
page plus press-release exhibit. -/
theorem claim_C7_exhibit_merge_witness :
    ∃ s : IngSt, run_ingestion_graph
        ⟨[⟨"MSFT", "0001", "https://sec.test/1", "8-K", []⟩], fun _ => false,
          fun _ => some "cover", fun _ => some "Revenue was $50B"⟩
        (4 * 1 + 3) = some s
      ∧ ∃ p ∈ s.filing_payloads,
          p.accession_number = "0001"
          ∧ p.raw_text = (if strContains "cover" "Revenue was $50B" = true
              then "cover" else "cover" ++ "\n\n" ++ "Revenue was $50B")
          ∧ strContains p.raw_text "Revenue was $50B" = true := by
  exact claim_C7_exhibit_merge
    ⟨[⟨"MSFT", "0001", "https://sec.test/1", "8-K", []⟩], fun _ => false,
      fun _ => some "cover", fun _ => some "Revenue was $50B"⟩
    ⟨"MSFT", "0001", "https://sec.test/1", "8-K", []⟩
    (by decide) rfl (by decide) (by decide)

/-- C10: one invocation of the ingestion graph terminates with an empty
queue, having emitted one payload and traced one emit step per deduplicated
record; each emit pass with a current filing pops exactly the queue head;
and the loop re-enters fetch_full_text from emit_payload if and only if the
queue is non-empty. -/
theorem claim_C10_termination (env : IngestionEnv) :
    (∃ s : IngSt, run_ingestion_graph env (4 * env.records.length + 3) = some s
      ∧ s.filings_queue = []
      ∧ s.filing_payloads.length
          = (env.records.filter (fun r => !env.has_accession r.accession_number)).length
      ∧ s.trace.count "emit_filing_payload"
          = (env.records.filter (fun r => !env.has_accession r.accession_number)).length)
    ∧ (∀ (st : IngSt) (c : QueuedFiling), st.current_filing = some c →
        (emit_filing_payload st).filings_queue = st.filings_queue.tail
        ∧ (emit_filing_payload st).filing_payloads.length = st.filing_payloads.length + 1)
    ∧ (∀ st : IngSt, ingNext .emit_payload st = some .fetch_full_text ↔ st.filings_queue ≠ [])
    ∧ (∀ st : IngSt, ingNext .emit_payload st = none ↔ st.filings_queue = []) := by
  refine ⟨?_, ?_, ?_, ?_⟩
  · obtain ⟨tr2, rt2, hrun, hcount⟩ := ing_run env
    refine ⟨_, hrun, rfl, ?_, hcount⟩
    simp [List.length_map]
  · intro st c h
    constructor
    · simp [emit_filing_payload, h]
    · simp [emit_filing_payload, h]
  · intro st
    constructor
    · intro h
      intro hq
      simp [ingNext, route_continue_or_end, hq] at h
    · intro hq
      simp [ingNext, route_continue_or_end, List.isEmpty_iff, hq]
  · intro st
    constructor
    · intro h
      by_cases hq : st.filings_queue = []
      · exact hq
      · simp [ingNext, route_continue_or_end, List.isEmpty_iff, hq] at h
    · intro hq
      simp [ingNext, route_continue_or_end, hq]

/-- Witness for C10 at a concrete one-record environment and a concrete
state with a current filing and a one-element queue. -/
theorem claim_C10_termination_witness :
    (∃ s : IngSt, run_ingestion_graph
        ⟨[⟨"MSFT", "A1", "http://x", "8-K", []⟩], fun _ => false,
          fun _ => some "t", fun _ => none⟩ (4 * 1 + 3) = some s
      ∧ s.filings_queue = []
      ∧ s.filing_payloads.length = 1
      ∧ s.trace.count "emit_filing_payload" = 1)
    ∧ (emit_filing_payload ⟨[toQueued ⟨"T", "A", "u", "8-K", []⟩], [], some
        (toQueued ⟨"T", "A", "u", "8-K", []⟩), "", []⟩).filings_queue = []
    ∧ ingNext .emit_payload (⟨[], [], none, "", []⟩ : IngSt) = none := by
  obtain ⟨h1, h2, h3, h4⟩ := claim_C10_termination
    ⟨[⟨"MSFT", "A1", "http://x", "8-K", []⟩], fun _ => false, fun _ => some "t", fun _ => none⟩
  refine ⟨?_, ?_, ?_⟩
  · obtain ⟨s, hs, hq, hl, hc⟩ := h1
    exact ⟨s, hs, hq, by rw [hl]; decide, by rw [hc]; decide⟩
  · exact (h2 ⟨[toQueued ⟨"T", "A", "u", "8-K", []⟩], [], some
      (toQueued ⟨"T", "A", "u", "8-K", []⟩), "", []⟩ (toQueued ⟨"T", "A", "u", "8-K", []⟩) rfl).1
  · exact (h4 ⟨[], [], none, "", []⟩).mpr rfl
